import Mathlib

/-!
# kapp `clusterapply`: the change-set scheduler

A shallow embedding of `pkg/kapp/clusterapply/cluster_change_set.go`:
`ClusterChangeSet.Calculate` (wait propagation and pruning),
`ClusterChangeSet.markChangesToWait`, `ClusterChangeSet.Apply` (the
apply / wait / unblock loop) and `wrappedClusterChange.Op`.

Pointers are addresses: a `*ctldgraph.Change` is an index into the store
`ChangeGraph.heap`.  Each graph node wraps exactly one `*ClusterChange`, which
is stored inside the node, so the address of a node also identifies the
cluster change it wraps.  Recursion through pointers is bounded by a fuel
argument; running out of fuel (or following a dangling address) gives `none`.
-/

set_option linter.dupNamespace false

namespace Kapp

/-! ## Data model -/

/-- Modelled from the spec: the type `ClusterChangeApplyOp` is declared outside the
files at hand.  It has the four named operations; `Other` stands for any value that
is none of them (the `default:` branches of `Op` and `applyOpCode`). -/
inductive ClusterChangeApplyOp where
  | Add
  | Delete
  | Update
  | Noop
  | Other (raw : String)
  deriving DecidableEq, Repr

/-- Modelled from the spec: the type `ClusterChangeWaitOp` is declared outside the
files at hand.  `OK` is "reconcile"; `Other` stands for any value that is none of the
three named ones (the `default:` branch of `waitOpCode`). -/
inductive ClusterChangeWaitOp where
  | OK
  | Delete
  | Noop
  | Other (raw : String)
  deriving DecidableEq, Repr

/-- The operation kind of `ctldgraph`, as used by `wrappedClusterChange.Op`. -/
inductive ActualChangeOp where
  | Upsert
  | Delete
  | Noop
  deriving DecidableEq, Repr

/-- Modelled from the spec: the struct `ClusterChange` is declared outside the files at
hand.  It carries the apply and wait operations computed once at construction and the
one-way flag "needs waiting". -/
structure ClusterChange where
  applyOp : ClusterChangeApplyOp
  waitOp : ClusterChangeWaitOp
  markedNeedsWaiting : Bool
  deriving DecidableEq, Repr

/-- Modelled from the spec: `ClusterChange.ApplyOp` is missing from the files at hand;
the apply operation is the one computed at construction. -/
def ClusterChange.ApplyOp (c : ClusterChange) : ClusterChangeApplyOp :=
  c.applyOp

/-- Modelled from the spec: `ClusterChange.WaitOp` is missing from the files at hand.
Once the flag "needs waiting" is set the wait operation is reported as non-Noop
(here `OK`, reconcile) even if it was Noop originally; otherwise it is the one
computed at construction. -/
def ClusterChange.WaitOp (c : ClusterChange) : ClusterChangeWaitOp :=
  if c.markedNeedsWaiting then ClusterChangeWaitOp.OK else c.waitOp

/-- Modelled from the spec: `ClusterChange.MarkNeedsWaiting` is missing from the files
at hand; it sets the one-way flag and touches nothing else. -/
def ClusterChange.MarkNeedsWaiting (c : ClusterChange) : ClusterChange :=
  { c with markedNeedsWaiting := true }

/-- The struct `wrappedClusterChange`: it embeds a `*ClusterChange`. -/
structure wrappedClusterChange where
  ClusterChange : ClusterChange
  deriving DecidableEq, Repr

/-- The method `wrappedClusterChange.Op`.  The `panic` of the `default:` branch is
the error result, with the panic message. -/
def wrappedClusterChange.Op (c : wrappedClusterChange) : Except String ActualChangeOp :=
  match c.ClusterChange.ApplyOp with
  | ClusterChangeApplyOp.Add => Except.ok ActualChangeOp.Upsert
  | ClusterChangeApplyOp.Update => Except.ok ActualChangeOp.Upsert
  | ClusterChangeApplyOp.Delete => Except.ok ActualChangeOp.Delete
  | ClusterChangeApplyOp.Noop => Except.ok ActualChangeOp.Noop
  | ClusterChangeApplyOp.Other raw =>
    Except.error ("Unknown change apply operation: " ++ raw)

/-- The method `wrappedClusterChange.WaitOp`. -/
def wrappedClusterChange.WaitOp (c : wrappedClusterChange) : ClusterChangeWaitOp :=
  c.ClusterChange.WaitOp

/-- The method `wrappedClusterChange.MarkNeedsWaiting`; the mutation of the pointee
is the returned value. -/
def wrappedClusterChange.MarkNeedsWaiting (c : wrappedClusterChange) :
    wrappedClusterChange :=
  { ClusterChange := c.ClusterChange.MarkNeedsWaiting }

/-- Modelled from the spec: the struct `ctldgraph.Change` is declared outside the files
at hand.  A graph node wraps one change (`Change`) and lists the addresses of the nodes
it depends on (`WaitingFor`). -/
structure Change where
  Change : wrappedClusterChange
  WaitingFor : List Nat
  deriving DecidableEq, Repr

/-- Modelled from the spec: the struct `ctldgraph.ChangeGraph` is declared outside the
files at hand.  `heap` is the store of nodes (`heap[a]` is the node at address `a`) and
`changes` lists, in graph order, the addresses of the nodes of the graph. -/
structure ChangeGraph where
  heap : List Change
  changes : List Nat
  deriving DecidableEq, Repr

/-! ## The change graph -/

/-- The field `WaitingFor` of the node at an address (empty for a dangling address). -/
def ChangeGraph.WaitingFor (g : ChangeGraph) (a : Nat) : List Nat :=
  match g.heap[a]? with
  | some node => node.WaitingFor
  | none => []

/-- Modelled from the spec: `ChangeGraph.All` is missing from the files at hand; it
returns all nodes of the graph, in graph order. -/
def ChangeGraph.All (g : ChangeGraph) : List Nat :=
  g.changes

/-- The loop of `AllMatching` over the listed nodes; `matchFunc` may mutate nodes, so
the store is threaded through the calls. -/
def ChangeGraph.allMatchingLoop
    (matchFunc : ChangeGraph → Nat → Option (ChangeGraph × Bool)) :
    ChangeGraph → List Nat → Option (ChangeGraph × List Nat)
  | g, [] => some (g, [])
  | g, change :: rest =>
    match matchFunc g change with
    | none => none
    | some (g1, matched) =>
      match ChangeGraph.allMatchingLoop matchFunc g1 rest with
      | none => none
      | some (g2, result) => some (g2, if matched then change :: result else result)

/-- Modelled from the spec: `ChangeGraph.AllMatching` is missing from the files at hand;
it calls the predicate on every node, in graph order, and returns the nodes for which
it holds. -/
def ChangeGraph.AllMatching (g : ChangeGraph)
    (matchFunc : ChangeGraph → Nat → Option (ChangeGraph × Bool)) :
    Option (ChangeGraph × List Nat) :=
  ChangeGraph.allMatchingLoop matchFunc g g.changes

/-- Whether the predicate of `RemoveMatching` holds of the node at an address. -/
def ChangeGraph.isMatching (g : ChangeGraph) (matchFunc : Change → Bool) (a : Nat) :
    Bool :=
  match g.heap[a]? with
  | some node => matchFunc node
  | none => false

/-- The edge reconnection of `RemoveMatching`: a dependency on a removed node is
replaced by the (reconnected) dependencies of that node. -/
def ChangeGraph.relink (g : ChangeGraph) (matchFunc : Change → Bool) :
    Nat → List Nat → List Nat
  | 0, deps => deps.filter (fun d => !g.isMatching matchFunc d)
  | fuel + 1, deps =>
    deps.flatMap (fun d =>
      if g.isMatching matchFunc d then
        ChangeGraph.relink g matchFunc fuel (g.WaitingFor d)
      else [d])

/-- Modelled from the spec: `ChangeGraph.RemoveMatching` is missing from the files at
hand; it removes the nodes for which the predicate holds and reconnects the edges of
their neighbours, so that the ordering among the survivors is preserved. -/
def ChangeGraph.RemoveMatching (g : ChangeGraph) (matchFunc : Change → Bool) :
    ChangeGraph :=
  { heap := g.heap.map (fun node =>
      { node with WaitingFor := g.relink matchFunc g.heap.length node.WaitingFor })
    changes := g.changes.filter (fun a => !g.isMatching matchFunc a) }

/-- The call `change.Change.(wrappedClusterChange).MarkNeedsWaiting()` on the node at
an address. -/
def ChangeGraph.MarkNeedsWaiting (g : ChangeGraph) (a : Nat) : Option ChangeGraph :=
  match g.heap[a]? with
  | some node =>
    some { g with heap := g.heap.set a { node with Change := node.Change.MarkNeedsWaiting } }
  | none => none

/-! ## `ClusterChangeSet.Calculate` -/

/-- The `for` loop of `markChangesToWait`, over the recursive call `visit`; it stops at
the first dependency that needs waiting. -/
def markChangesToWaitLoop (visit : ChangeGraph → Nat → Option (ChangeGraph × Bool)) :
    ChangeGraph → List Nat → Option (ChangeGraph × Bool)
  | g, [] => some (g, false)
  | g, ch :: rest =>
    match visit g ch with
    | none => none
    | some (g1, true) => some (g1, true)
    | some (g1, false) => markChangesToWaitLoop visit g1 rest

/-- The method `ClusterChangeSet.markChangesToWait`. -/
def markChangesToWait : Nat → ChangeGraph → Nat → Option (ChangeGraph × Bool)
  | 0, _, _ => none
  | fuel + 1, g, change =>
    match g.heap[change]? with
    | none => none
    | some node =>
      match markChangesToWaitLoop (markChangesToWait fuel) g node.WaitingFor with
      | none => none
      | some (g1, needsWaiting) =>
        if needsWaiting then
          match g1.MarkNeedsWaiting change with
          | some g2 => some (g2, true)
          | none => none
        else
          match g1.heap[change]? with
          | some node1 => some (g1, decide (node1.Change.WaitOp ≠ ClusterChangeWaitOp.Noop))
          | none => none

/-- The closure `Calculate` gives to `AllMatching`:
`func(change) { c.markChangesToWait(change); return false }`. -/
def markMatchFunc (fuel : Nat) (g : ChangeGraph) (change : Nat) :
    Option (ChangeGraph × Bool) :=
  match markChangesToWait fuel g change with
  | some (g1, _) => some (g1, false)
  | none => none

/-- The first call of `Calculate` on the graph, `changesGraph.AllMatching` of the
closure above: the wait-propagation pass.  The list `AllMatching` returns is dropped. -/
def markAllChangesToWait (fuel : Nat) (changesGraph : ChangeGraph) : Option ChangeGraph :=
  match changesGraph.AllMatching (markMatchFunc fuel) with
  | some (g1, _) => some g1
  | none => none

/-- The loop of `markChangesToWait` with no early stop (no `break`): every dependency
is visited, and the node needs waiting when some dependency does. -/
def markChangesToWaitLoopNoStop
    (visit : ChangeGraph → Nat → Option (ChangeGraph × Bool)) :
    ChangeGraph → List Nat → Option (ChangeGraph × Bool)
  | g, [] => some (g, false)
  | g, ch :: rest =>
    match visit g ch with
    | none => none
    | some (g1, found) =>
      match markChangesToWaitLoopNoStop visit g1 rest with
      | none => none
      | some (g2, needsWaiting) => some (g2, found || needsWaiting)

/-- The method `markChangesToWait` with no early stop in its loop. -/
def markChangesToWaitNoStop : Nat → ChangeGraph → Nat → Option (ChangeGraph × Bool)
  | 0, _, _ => none
  | fuel + 1, g, change =>
    match g.heap[change]? with
    | none => none
    | some node =>
      match markChangesToWaitLoopNoStop (markChangesToWaitNoStop fuel) g
          node.WaitingFor with
      | none => none
      | some (g1, needsWaiting) =>
        if needsWaiting then
          match g1.MarkNeedsWaiting change with
          | some g2 => some (g2, true)
          | none => none
        else
          match g1.heap[change]? with
          | some node1 => some (g1, decide (node1.Change.WaitOp ≠ ClusterChangeWaitOp.Noop))
          | none => none

/-- The closure given to `AllMatching`, over the variant with no early stop. -/
def markMatchFuncNoStop (fuel : Nat) (g : ChangeGraph) (change : Nat) :
    Option (ChangeGraph × Bool) :=
  match markChangesToWaitNoStop fuel g change with
  | some (g1, _) => some (g1, false)
  | none => none

/-- The wait-propagation pass over the variant with no early stop. -/
def markAllChangesToWaitNoStop (fuel : Nat) (changesGraph : ChangeGraph) :
    Option ChangeGraph :=
  match changesGraph.AllMatching (markMatchFuncNoStop fuel) with
  | some (g1, _) => some g1
  | none => none

/-- The predicate `Calculate` gives to `RemoveMatching`. -/
def pruneMatchFunc (change : Change) : Bool :=
  change.Change.ClusterChange.ApplyOp == ClusterChangeApplyOp.Noop &&
    change.Change.ClusterChange.WaitOp == ClusterChangeWaitOp.Noop

/-- The struct `ClusterChangeSet`, with the fields `Calculate` reads; `Diff` is the
type of diff entries (`ctldiff.Change`). -/
structure ClusterChangeSet (Diff : Type) where
  changes : List Diff
  clusterChangeFactory : Diff → ClusterChange

/-- The method `ClusterChangeSet.Calculate`.  `NewChangeGraph` is the graph builder of
`ctldgraph`, a parameter.  The result pairs the `[]*ClusterChange` (the addresses of the
nodes wrapping them) with the graph; `Except.error` is the `error` returned. -/
def ClusterChangeSet.Calculate {Diff : Type} (fuel : Nat)
    (NewChangeGraph : List wrappedClusterChange → Except String ChangeGraph)
    (c : ClusterChangeSet Diff) : Option (Except String (List Nat × ChangeGraph)) :=
  let wrappedClusterChanges :=
    c.changes.map (fun change => wrappedClusterChange.mk (c.clusterChangeFactory change))
  match NewChangeGraph wrappedClusterChanges with
  | Except.error err => some (Except.error err)
  | Except.ok changesGraph =>
    match markAllChangesToWait fuel changesGraph with
    | none => none
    | some marked =>
      let pruned := marked.RemoveMatching pruneMatchFunc
      let clusterChanges := pruned.All
      some (Except.ok (clusterChanges, pruned))

/-! ## `ClusterChangeSet.Apply` -/

/-- Modelled from the spec: the struct `ctldgraph.BlockedChanges` is declared outside
the files at hand.  It is a view over the graph that records the nodes passed to
`Unblock` so far. -/
structure BlockedChanges where
  graph : ChangeGraph
  unblocked : List Nat
  deriving DecidableEq, Repr

/-- Modelled from the spec: `ctldgraph.NewBlockedChanges` is missing from the files at
hand; at the start nothing has been passed to `Unblock`. -/
def NewBlockedChanges (graph : ChangeGraph) : BlockedChanges :=
  { graph := graph, unblocked := [] }

/-- A node has all its dependencies satisfied when every node of its `WaitingFor` has
been passed to `Unblock`. -/
def BlockedChanges.isUnblocked (b : BlockedChanges) (change : Nat) : Bool :=
  (b.graph.WaitingFor change).all (fun d => decide (d ∈ b.unblocked))

/-- Modelled from the spec: `BlockedChanges.Unblocked` is missing from the files at
hand; it yields the nodes of the graph all of whose dependencies have been reported
done. -/
def BlockedChanges.Unblocked (b : BlockedChanges) : List Nat :=
  b.graph.All.filter (fun change => b.isUnblocked change)

/-- Modelled from the spec: `BlockedChanges.Blocked` is missing from the files at hand;
it yields the nodes of the graph that are not unblocked. -/
def BlockedChanges.Blocked (b : BlockedChanges) : List Nat :=
  b.graph.All.filter (fun change => !b.isUnblocked change)

/-- Modelled from the spec: `BlockedChanges.Unblock` is missing from the files at hand;
it records that a node is done. -/
def BlockedChanges.Unblock (b : BlockedChanges) (change : Nat) : BlockedChanges :=
  { b with unblocked := change :: b.unblocked }

/-- Modelled from the spec: the applying tracker (`ApplyingChanges`) is declared outside
the files at hand.  Its behaviour is arbitrary: `S` is its state, `init` is
`NewApplyingChanges` at the expected number of changes, `Apply` returns the changes
applied or an error, together with the next state. -/
structure ApplyingChanges (S : Type) where
  init : Nat → S
  Apply : S → List Nat → Except String (List Nat) × S
  NumApplied : S → Nat

/-- Modelled from the spec: the waiting tracker (`WaitingChanges`) is declared outside
the files at hand.  Its behaviour is arbitrary: `T` is its state, `init` is
`NewWaitingChanges` at the expected number of changes, `WaitForAny` returns the changes
that are done (each by its field `Graph`) or an error, together with the next state. -/
structure WaitingChanges (T : Type) where
  init : Nat → T
  Track : T → List Nat → T
  IsEmpty : T → Bool
  WaitForAny : T → Except String (List Nat) × T

/-- A call `Apply` makes on one of the two trackers, with what the call returned. -/
inductive Call where
  | Apply (changes : List Nat) (result : Except String (List Nat))
  | Track (appliedChanges : List Nat)
  | IsEmpty (result : Bool)
  | NumApplied (result : Nat)
  | WaitForAny (result : Except String (List Nat))

/-- The variables of `Apply` that change in its loop, and the calls made on the
trackers so far, oldest first. -/
structure ApplyState (S T : Type) where
  applyingChanges : S
  waitingChanges : T
  blockedChanges : BlockedChanges
  calls : List Call

/-- What one iteration of the loop of `Apply` does: it returns from `Apply` (with `nil`
or an error) or goes on to the next iteration. -/
inductive Iteration (S T : Type) where
  | returned (err : Except String Unit) (s : ApplyState S T)
  | continued (s : ApplyState S T)

/-- The error `Apply` returns when its sanity check fails. -/
def inconsistencyError (expectedNumChanges appliedNumChanges : Nat) : String :=
  "Internal inconsistency: did not apply all changes: " ++
    toString expectedNumChanges ++ " != " ++ toString appliedNumChanges

/-- The body of the `for` loop of `ClusterChangeSet.Apply`.  The two console outputs
(`fmt.Printf` of `WhyBlocked`, `ui.NotifySection`) change no variable and are left
out. -/
def applyIteration {S T : Type} (applyingChanges : ApplyingChanges S)
    (waitingChanges : WaitingChanges T) (expectedNumChanges : Nat)
    (s : ApplyState S T) : Iteration S T :=
  let unblocked := s.blockedChanges.Unblocked
  match applyingChanges.Apply s.applyingChanges unblocked with
  | (Except.error err, a1) =>
    Iteration.returned (Except.error err)
      { s with applyingChanges := a1
               calls := s.calls ++ [Call.Apply unblocked (Except.error err)] }
  | (Except.ok appliedChanges, a1) =>
    let w1 := waitingChanges.Track s.waitingChanges appliedChanges
    let calls1 := s.calls ++ [Call.Apply unblocked (Except.ok appliedChanges),
      Call.Track appliedChanges, Call.IsEmpty (waitingChanges.IsEmpty w1)]
    if waitingChanges.IsEmpty w1 then
      let appliedNumChanges := applyingChanges.NumApplied a1
      let calls2 := calls1 ++ [Call.NumApplied appliedNumChanges]
      if expectedNumChanges ≠ appliedNumChanges then
        Iteration.returned
          (Except.error (inconsistencyError expectedNumChanges appliedNumChanges))
          { s with applyingChanges := a1, waitingChanges := w1, calls := calls2 }
      else
        Iteration.returned (Except.ok ())
          { s with applyingChanges := a1, waitingChanges := w1, calls := calls2 }
    else
      match waitingChanges.WaitForAny w1 with
      | (Except.error err, w2) =>
        Iteration.returned (Except.error err)
          { s with applyingChanges := a1, waitingChanges := w2
                   calls := calls1 ++ [Call.WaitForAny (Except.error err)] }
      | (Except.ok doneChanges, w2) =>
        Iteration.continued
          { applyingChanges := a1
            waitingChanges := w2
            blockedChanges :=
              doneChanges.foldl (fun b change => b.Unblock change) s.blockedChanges
            calls := calls1 ++ [Call.WaitForAny (Except.ok doneChanges)] }

/-- The `for` loop of `ClusterChangeSet.Apply`, for at most `fuel` iterations.  The
first component is what `Apply` returned (`none` while the loop is still running). -/
def applyLoop {S T : Type} (applyingChanges : ApplyingChanges S)
    (waitingChanges : WaitingChanges T) (expectedNumChanges : Nat) :
    Nat → ApplyState S T → Option (Except String Unit) × ApplyState S T
  | 0, s => (none, s)
  | fuel + 1, s =>
    match applyIteration applyingChanges waitingChanges expectedNumChanges s with
    | Iteration.returned err s1 => (some err, s1)
    | Iteration.continued s1 =>
      applyLoop applyingChanges waitingChanges expectedNumChanges fuel s1

/-- The state of `Apply` when it enters its loop. -/
def ApplyState.initial {S T : Type} (applyingChanges : ApplyingChanges S)
    (waitingChanges : WaitingChanges T) (changesGraph : ChangeGraph) : ApplyState S T :=
  { applyingChanges := applyingChanges.init changesGraph.All.length
    waitingChanges := waitingChanges.init changesGraph.All.length
    blockedChanges := NewBlockedChanges changesGraph
    calls := [] }

/-- The method `ClusterChangeSet.Apply`, run for at most `fuel` iterations of its loop
with the two trackers given. -/
def ClusterChangeSet.Apply {S T : Type} (fuel : Nat) (applyingChanges : ApplyingChanges S)
    (waitingChanges : WaitingChanges T) (changesGraph : ChangeGraph) :
    Option (Except String Unit) × ApplyState S T :=
  let allChanges := changesGraph.All
  let expectedNumChanges := allChanges.length
  applyLoop applyingChanges waitingChanges expectedNumChanges fuel
    (ApplyState.initial applyingChanges waitingChanges changesGraph)

/-! ## Examples -/

/-- A diff entry of the examples: the apply and wait operations the factory computes
from it. -/
abbrev ExampleDiff : Type := ClusterChangeApplyOp × ClusterChangeWaitOp

/-- The change factory of the examples. -/
def exampleFactory (d : ExampleDiff) : ClusterChange :=
  { applyOp := d.1, waitOp := d.2, markedNeedsWaiting := false }

/-- A graph builder for the examples: node `k` wraps the `k`-th change and waits for
the nodes `edges[k]`. -/
def exampleNewChangeGraph (edges : List (List Nat)) (wrapped : List wrappedClusterChange) :
    Except String ChangeGraph :=
  Except.ok
    { heap := List.zipWith (fun w ds => { Change := w, WaitingFor := ds }) wrapped edges
      changes := List.range wrapped.length }

/-- The chain A (node 0) depends on B (node 1) depends on C (node 2): B has nothing to
apply and nothing to wait for, C is an update that is waited for. -/
def chainChangeSet : ClusterChangeSet ExampleDiff :=
  { changes := [(ClusterChangeApplyOp.Add, ClusterChangeWaitOp.Noop),
      (ClusterChangeApplyOp.Noop, ClusterChangeWaitOp.Noop),
      (ClusterChangeApplyOp.Update, ClusterChangeWaitOp.OK)]
    clusterChangeFactory := exampleFactory }

/-- The edges of the chain. -/
def chainEdges : List (List Nat) := [[1], [2], []]

/-- The graph of the chain, as built from `chainChangeSet`. -/
def chainGraph : ChangeGraph :=
  { heap := [
      { Change := wrappedClusterChange.mk
          (exampleFactory (ClusterChangeApplyOp.Add, ClusterChangeWaitOp.Noop))
        WaitingFor := [1] },
      { Change := wrappedClusterChange.mk
          (exampleFactory (ClusterChangeApplyOp.Noop, ClusterChangeWaitOp.Noop))
        WaitingFor := [2] },
      { Change := wrappedClusterChange.mk
          (exampleFactory (ClusterChangeApplyOp.Update, ClusterChangeWaitOp.OK))
        WaitingFor := [] }]
    changes := [0, 1, 2] }

/-- The chain with nothing to wait for: as `chainChangeSet`, but C is not waited for. -/
def inertChainChangeSet : ClusterChangeSet ExampleDiff :=
  { changes := [(ClusterChangeApplyOp.Add, ClusterChangeWaitOp.Noop),
      (ClusterChangeApplyOp.Noop, ClusterChangeWaitOp.Noop),
      (ClusterChangeApplyOp.Update, ClusterChangeWaitOp.Noop)]
    clusterChangeFactory := exampleFactory }

/-- The graph of the chain with nothing to wait for. -/
def inertChainGraph : ChangeGraph :=
  { heap := [
      { Change := wrappedClusterChange.mk
          (exampleFactory (ClusterChangeApplyOp.Add, ClusterChangeWaitOp.Noop))
        WaitingFor := [1] },
      { Change := wrappedClusterChange.mk
          (exampleFactory (ClusterChangeApplyOp.Noop, ClusterChangeWaitOp.Noop))
        WaitingFor := [2] },
      { Change := wrappedClusterChange.mk
          (exampleFactory (ClusterChangeApplyOp.Update, ClusterChangeWaitOp.Noop))
        WaitingFor := [] }]
    changes := [0, 1, 2] }

/-- Two entries with nothing to apply and nothing to wait for. -/
def noopChangeSet : ClusterChangeSet ExampleDiff :=
  { changes := [(ClusterChangeApplyOp.Noop, ClusterChangeWaitOp.Noop),
      (ClusterChangeApplyOp.Noop, ClusterChangeWaitOp.Noop)]
    clusterChangeFactory := exampleFactory }

/-- The graph of `noopChangeSet`: node 0 waits for node 1. -/
def noopGraph : ChangeGraph :=
  { heap := [
      { Change := wrappedClusterChange.mk
          (exampleFactory (ClusterChangeApplyOp.Noop, ClusterChangeWaitOp.Noop))
        WaitingFor := [1] },
      { Change := wrappedClusterChange.mk
          (exampleFactory (ClusterChangeApplyOp.Noop, ClusterChangeWaitOp.Noop))
        WaitingFor := [] }]
    changes := [0, 1] }

/-- A graph with a cycle: two updates that wait for each other. -/
def cycleGraph : ChangeGraph :=
  { heap := [
      { Change := wrappedClusterChange.mk
          (exampleFactory (ClusterChangeApplyOp.Update, ClusterChangeWaitOp.OK))
        WaitingFor := [1] },
      { Change := wrappedClusterChange.mk
          (exampleFactory (ClusterChangeApplyOp.Update, ClusterChangeWaitOp.OK))
        WaitingFor := [0] }]
    changes := [0, 1] }

/-- Three updates that wait for nothing. -/
def independentGraph : ChangeGraph :=
  { heap := [
      { Change := wrappedClusterChange.mk
          (exampleFactory (ClusterChangeApplyOp.Update, ClusterChangeWaitOp.OK))
        WaitingFor := [] },
      { Change := wrappedClusterChange.mk
          (exampleFactory (ClusterChangeApplyOp.Update, ClusterChangeWaitOp.OK))
        WaitingFor := [] },
      { Change := wrappedClusterChange.mk
          (exampleFactory (ClusterChangeApplyOp.Update, ClusterChangeWaitOp.OK))
        WaitingFor := [] }]
    changes := [0, 1, 2] }

/-- An applying tracker for the examples.  Its state lists the changes applied so far;
it applies, in order, the changes handed to it that it has not applied yet, and fails at
the first one that is in `failing`. -/
def exampleApplyingChanges (failing : List Nat) : ApplyingChanges (List Nat) :=
  { init := fun _ => []
    Apply := fun applied changes =>
      let fresh := changes.filter (fun ch => !applied.contains ch)
      match fresh.find? (fun ch => failing.contains ch) with
      | some _ =>
        (Except.error "apply failed",
          applied ++ fresh.takeWhile (fun ch => !failing.contains ch))
      | none => (Except.ok fresh, applied ++ fresh)
    NumApplied := fun applied => applied.length }

/-- A waiting tracker for the examples.  Its state lists the changes still waited for;
`WaitForAny` reports the oldest one done, or times out when `timesOut` is set. -/
def exampleWaitingChanges (timesOut : Bool) : WaitingChanges (List Nat) :=
  { init := fun _ => []
    Track := fun tracked appliedChanges => tracked ++ appliedChanges
    IsEmpty := fun tracked => tracked.isEmpty
    WaitForAny := fun tracked =>
      if timesOut then (Except.error "timed out waiting", tracked)
      else
        match tracked with
        | [] => (Except.ok [], [])
        | ch :: rest => (Except.ok [ch], rest) }

/-! ## Properties of graphs -/

/-- Node `a` depends directly on node `d`: `d` is in the `WaitingFor` of `a`. -/
def ChangeGraph.DependsOn (g : ChangeGraph) (a d : Nat) : Prop :=
  d ∈ g.WaitingFor a

/-- The graph is well formed: every listed node is in the store, and the nodes a listed
node waits for are listed too (all changes are included at the top level). -/
structure ChangeGraph.Closed (g : ChangeGraph) : Prop where
  listed_lt : ∀ a ∈ g.changes, a < g.heap.length
  deps_listed : ∀ a ∈ g.changes, ∀ d ∈ g.WaitingFor a, d ∈ g.changes

/-- The graph is acyclic: no node depends on itself through one or more edges. -/
def ChangeGraph.Acyclic (g : ChangeGraph) : Prop :=
  ∀ a ∈ g.changes, ¬ Relation.TransGen g.DependsOn a a

/-- The `WaitOp` of the node at `a` is not Noop. -/
def ChangeGraph.WaitOpNonNoop (g : ChangeGraph) (a : Nat) : Prop :=
  ∃ node, g.heap[a]? = some node ∧ node.Change.WaitOp ≠ ClusterChangeWaitOp.Noop

/-- Node `a` depends, directly or through intermediate nodes, on a node whose `WaitOp`
is not Noop. -/
def ChangeGraph.DependsOnWaiting (g : ChangeGraph) (a : Nat) : Prop :=
  ∃ d, Relation.TransGen g.DependsOn a d ∧ g.WaitOpNonNoop d

/-- The flag "needs waiting" of the node at `a`. -/
def ChangeGraph.isMarked (g : ChangeGraph) (a : Nat) : Bool :=
  match g.heap[a]? with
  | some node => node.Change.ClusterChange.markedNeedsWaiting
  | none => false

/-- The graph `g1` is `g` with some more nodes marked "needs waiting": same listed nodes,
same store size, and every node is unchanged or is the old node after
`MarkNeedsWaiting`. -/
structure MarkStep (g g1 : ChangeGraph) : Prop where
  changes_eq : g1.changes = g.changes
  length_eq : g1.heap.length = g.heap.length
  node : ∀ (a : Nat) (n : Change), g.heap[a]? = some n → ∃ n1, g1.heap[a]? = some n1 ∧
    (n1 = n ∨ n1 = { n with Change := n.Change.MarkNeedsWaiting })

/-- Every mark of `g` was there in `g0` or sits on a listed node that depends on a
waiting node of `g0`. -/
def MarksSound (g0 g : ChangeGraph) : Prop :=
  ∀ a, g.isMarked a = true →
    g0.isMarked a = true ∨ (a ∈ g0.changes ∧ g0.DependsOnWaiting a)

/-- What a visit of a listed node during the wait-propagation pass guarantees, `g0`
being the graph before the pass: it only adds sound marks, it returns whether the node needs
waiting, and it marks the node when the node depends on a waiting node. -/
def VisitSpec (g0 : ChangeGraph)
    (visit : ChangeGraph → Nat → Option (ChangeGraph × Bool)) : Prop :=
  ∀ g a r, MarkStep g0 g → MarksSound g0 g → a ∈ g0.changes → visit g a = some r →
    MarkStep g r.1 ∧ MarksSound g0 r.1 ∧
      (r.2 = true ↔ g0.WaitOpNonNoop a ∨ g0.DependsOnWaiting a) ∧
      (g0.DependsOnWaiting a → r.1.isMarked a = true)

/-! ## Properties of runs of `Apply` -/

/-- In a log of calls, every change handed to the applying tracker has all the nodes it
waits for (in `g`) among the changes an earlier `WaitForAny` returned as done. -/
def CallsOrdered (g : ChangeGraph) (calls : List Call) : Prop :=
  ∀ (before : List Call) (batch : List Nat) (result : Except String (List Nat))
    (later : List Call), calls = before ++ Call.Apply batch result :: later →
    ∀ n ∈ batch, ∀ d ∈ g.WaitingFor n,
      ∃ done, Call.WaitForAny (Except.ok done) ∈ before ∧ d ∈ done

/-- The invariant of the loop of `Apply` on the graph `g`: the view is over `g`, only
changes returned by `WaitForAny` were passed to `Unblock`, and the calls are ordered. -/
structure ApplyInvariant {S T : Type} (g : ChangeGraph) (s : ApplyState S T) : Prop where
  graph_eq : s.blockedChanges.graph = g
  unblocked_done : ∀ u ∈ s.blockedChanges.unblocked,
    ∃ done, Call.WaitForAny (Except.ok done) ∈ s.calls ∧ u ∈ done
  ordered : CallsOrdered g s.calls

/-- The state an iteration ends in. -/
def Iteration.state {S T : Type} : Iteration S T → ApplyState S T
  | Iteration.returned _ s => s
  | Iteration.continued s => s

/-- The assumption "the trackers apply and track only the nodes handed to them", as far
as an empty batch goes: both trackers start empty; handed no change, the applying tracker
applies nothing (no error, no applied change, same count); handed no applied change, an
empty waiting tracker stays empty. -/
structure TrackersOnlyHandleHanded {S T : Type} (applyingChanges : ApplyingChanges S)
    (waitingChanges : WaitingChanges T) : Prop where
  numApplied_init : ∀ n, applyingChanges.NumApplied (applyingChanges.init n) = 0
  apply_nil : ∀ s, ∃ s1, applyingChanges.Apply s [] = (Except.ok [], s1) ∧
    applyingChanges.NumApplied s1 = applyingChanges.NumApplied s
  isEmpty_init : ∀ n, waitingChanges.IsEmpty (waitingChanges.init n) = true
  track_nil : ∀ w, waitingChanges.IsEmpty w = true →
    waitingChanges.IsEmpty (waitingChanges.Track w []) = true

/-! ## Theorems -/

/-- The wait operation of a wrapped change is not Noop exactly when the change is marked
"needs waiting" or the wait operation computed at construction is not Noop. -/
theorem waitOp_ne_noop_iff (c : wrappedClusterChange) :
    c.WaitOp ≠ ClusterChangeWaitOp.Noop ↔
      c.ClusterChange.markedNeedsWaiting = true ∨
        c.ClusterChange.waitOp ≠ ClusterChangeWaitOp.Noop := by
  unfold wrappedClusterChange.WaitOp ClusterChange.WaitOp
  cases h : c.ClusterChange.markedNeedsWaiting <;> simp

/-- A graph is a mark step of itself. -/
theorem MarkStep.refl (g : ChangeGraph) : MarkStep g g :=
  ⟨rfl, rfl, fun _ n h => ⟨n, h, Or.inl rfl⟩⟩

/-- Mark steps compose. -/
theorem MarkStep.trans {g g1 g2 : ChangeGraph} (h1 : MarkStep g g1) (h2 : MarkStep g1 g2) :
    MarkStep g g2 := by
  refine ⟨h2.changes_eq.trans h1.changes_eq, h2.length_eq.trans h1.length_eq, ?_⟩
  intro a n hn
  obtain ⟨n1, hn1, e1⟩ := h1.node a n hn
  obtain ⟨n2, hn2, e2⟩ := h2.node a n1 hn1
  refine ⟨n2, hn2, ?_⟩
  rcases e1 with rfl | rfl
  · exact e2
  · rcases e2 with rfl | rfl
    · exact Or.inr rfl
    · exact Or.inr rfl

/-- A mark step keeps every `WaitingFor`. -/
theorem MarkStep.waitingFor_eq {g g1 : ChangeGraph} (h : MarkStep g g1) (a : Nat) :
    g1.WaitingFor a = g.WaitingFor a := by
  unfold ChangeGraph.WaitingFor
  cases hn : g.heap[a]? with
  | none =>
    have : g1.heap[a]? = none := by
      rw [List.getElem?_eq_none_iff] at hn ⊢
      rw [h.length_eq]; exact hn
    rw [this]
  | some n =>
    obtain ⟨n1, hn1, e⟩ := h.node a n hn
    rw [hn1]
    rcases e with rfl | rfl <;> rfl

/-- A mark step keeps every mark. -/
theorem MarkStep.isMarked_mono {g g1 : ChangeGraph} (h : MarkStep g g1) (a : Nat)
    (hm : g.isMarked a = true) : g1.isMarked a = true := by
  unfold ChangeGraph.isMarked at hm ⊢
  cases hn : g.heap[a]? with
  | none => rw [hn] at hm; cases hm
  | some n =>
    rw [hn] at hm
    obtain ⟨n1, hn1, e⟩ := h.node a n hn
    rw [hn1]
    rcases e with rfl | rfl
    · exact hm
    · rfl

/-- Marking the node at `a` is a mark step; afterwards `a` is marked and every other
marked node was marked before. -/
theorem MarkNeedsWaiting_step {g g2 : ChangeGraph} {a : Nat}
    (h : g.MarkNeedsWaiting a = some g2) :
    MarkStep g g2 ∧ g2.isMarked a = true ∧
      ∀ b, g2.isMarked b = true → b = a ∨ g.isMarked b = true := by
  unfold ChangeGraph.MarkNeedsWaiting at h
  cases hn : g.heap[a]? with
  | none => rw [hn] at h; cases h
  | some n =>
    rw [hn] at h
    injection h with h
    subst h
    have hlt : a < g.heap.length := by
      rcases List.getElem?_eq_some.mp hn with ⟨hlt, _⟩; exact hlt
    refine ⟨⟨rfl, by simp, ?_⟩, ?_, ?_⟩
    · intro b m hm
      by_cases hab : a = b
      · subst hab
        rw [hn] at hm; injection hm with hm; subst hm
        exact ⟨_, by simp [List.getElem?_set_self hlt], Or.inr rfl⟩
      · exact ⟨m, by simp [List.getElem?_set_ne hab, hm], Or.inl rfl⟩
    · simp [ChangeGraph.isMarked, List.getElem?_set_self hlt,
        wrappedClusterChange.MarkNeedsWaiting, ClusterChange.MarkNeedsWaiting]
    · intro b hb
      by_cases hab : a = b
      · exact Or.inl hab.symm
      · right
        simpa [ChangeGraph.isMarked, List.getElem?_set_ne hab] using hb

/-- A node depends on a waiting node exactly when one of the nodes it waits for is a
waiting node or depends on one. -/
theorem dependsOnWaiting_iff (g : ChangeGraph) (a : Nat) :
    g.DependsOnWaiting a ↔
      ∃ d ∈ g.WaitingFor a, g.WaitOpNonNoop d ∨ g.DependsOnWaiting d := by
  constructor
  · rintro ⟨e, hae, he⟩
    obtain ⟨b, hab, hbe⟩ := Relation.TransGen.head'_iff.mp hae
    refine ⟨b, hab, ?_⟩
    rcases Relation.reflTransGen_iff_eq_or_transGen.mp hbe with h | h
    · left; subst h; exact he
    · right; exact ⟨e, h, he⟩
  · rintro ⟨d, hd, h | ⟨e, hde, he⟩⟩
    · exact ⟨d, Relation.TransGen.single hd, h⟩
    · exact ⟨e, Relation.TransGen.head hd hde, he⟩

/-- A marked node has a `WaitOp` that is not Noop. -/
theorem isMarked_waitOpNonNoop {g : ChangeGraph} {a : Nat} (h : g.isMarked a = true) :
    g.WaitOpNonNoop a := by
  unfold ChangeGraph.isMarked at h
  cases hn : g.heap[a]? with
  | none => rw [hn] at h; cases h
  | some n =>
    rw [hn] at h
    exact ⟨n, hn, (waitOp_ne_noop_iff _).mpr (Or.inl h)⟩

/-- A mark step keeps every `WaitOp` that is not Noop. -/
theorem MarkStep.waitOpNonNoop_mono {g g1 : ChangeGraph} (h : MarkStep g g1) {a : Nat}
    (hw : g.WaitOpNonNoop a) : g1.WaitOpNonNoop a := by
  obtain ⟨n, hn, hne⟩ := hw
  obtain ⟨n1, hn1, e⟩ := h.node a n hn
  refine ⟨n1, hn1, ?_⟩
  rcases e with rfl | rfl
  · exact hne
  · exact (waitOp_ne_noop_iff _).mpr (Or.inl rfl)

/-- After a mark step, a `WaitOp` that is not Noop was so before or the node is marked. -/
theorem MarkStep.waitOpNonNoop_inv {g g1 : ChangeGraph} (h : MarkStep g g1) {a : Nat}
    (hw : g1.WaitOpNonNoop a) : g.WaitOpNonNoop a ∨ g1.isMarked a = true := by
  obtain ⟨n1, hn1, hne⟩ := hw
  have hlt : a < g.heap.length := by
    rcases List.getElem?_eq_some.mp hn1 with ⟨hlt, _⟩
    rw [h.length_eq] at hlt; exact hlt
  obtain ⟨m1, hm1, e⟩ := h.node a _ (List.getElem?_eq_getElem hlt)
  rw [hn1] at hm1; injection hm1 with hm1; subst hm1
  rcases e with e | e
  · left; exact ⟨_, List.getElem?_eq_getElem hlt, e ▸ hne⟩
  · right
    unfold ChangeGraph.isMarked
    rw [hn1, e]; rfl

/-- The loop of `markChangesToWait`: it only adds sound marks; it returns true only if
some dependency needs waiting, and false only if none does. -/
theorem markChangesToWaitLoop_spec {g0 : ChangeGraph}
    {visit : ChangeGraph → Nat → Option (ChangeGraph × Bool)} (hv : VisitSpec g0 visit) :
    ∀ (ds : List Nat) (g : ChangeGraph) (r : ChangeGraph × Bool),
      (∀ d ∈ ds, d ∈ g0.changes) →
      MarkStep g0 g → MarksSound g0 g → markChangesToWaitLoop visit g ds = some r →
      MarkStep g r.1 ∧ MarksSound g0 r.1 ∧
        (r.2 = true → ∃ d ∈ ds, g0.WaitOpNonNoop d ∨ g0.DependsOnWaiting d) ∧
        (r.2 = false → ∀ d ∈ ds, ¬ (g0.WaitOpNonNoop d ∨ g0.DependsOnWaiting d)) := by
  intro ds
  induction ds with
  | nil =>
    intro g r _ hs hm h
    simp only [markChangesToWaitLoop] at h
    injection h with h; subst h
    exact ⟨MarkStep.refl g, hm, by simp, by simp⟩
  | cons d rest ih =>
    intro g r hds hs hm h
    simp only [markChangesToWaitLoop] at h
    cases hvd : visit g d with
    | none => rw [hvd] at h; cases h
    | some r1 =>
      obtain ⟨g1, b⟩ := r1
      obtain ⟨hs1, hm1, hb, _⟩ :=
        hv g d (g1, b) hs hm (hds d (List.mem_cons_self _ _)) hvd
      rw [hvd] at h
      cases b with
      | true =>
        simp only at h
        injection h with h; subst h
        exact ⟨hs1, hm1, fun _ => ⟨d, List.mem_cons_self _ _, hb.mp rfl⟩, by simp⟩
      | false =>
        simp only at h
        obtain ⟨hs2, hm2, ht, hf⟩ :=
          ih g1 r (fun x hx => hds x (List.mem_cons_of_mem _ hx)) (hs.trans hs1) hm1 h
        refine ⟨hs1.trans hs2, hm2, ?_, ?_⟩
        · intro hr
          obtain ⟨e, he, hne⟩ := ht hr
          exact ⟨e, List.mem_cons_of_mem _ he, hne⟩
        · intro hr e he
          rcases List.mem_cons.mp he with rfl | he
          · intro hc
            have := hb.mpr hc
            cases this
          · exact hf hr e he

/-- The visit `markChangesToWait` satisfies `VisitSpec` at every fuel. -/
theorem markChangesToWait_spec (g0 : ChangeGraph) (hc : g0.Closed) :
    ∀ fuel, VisitSpec g0 (markChangesToWait fuel) := by
  intro fuel
  induction fuel with
  | zero =>
    intro g a r _ _ _ h
    simp [markChangesToWait] at h
  | succ fuel ih =>
    intro g a r hs hm ha h
    simp only [markChangesToWait] at h
    cases hn : g.heap[a]? with
    | none => rw [hn] at h; cases h
    | some node =>
      rw [hn] at h
      simp only at h
      have hwf : node.WaitingFor = g0.WaitingFor a := by
        rw [← hs.waitingFor_eq a]
        simp [ChangeGraph.WaitingFor, hn]
      cases hl : markChangesToWaitLoop (markChangesToWait fuel) g node.WaitingFor with
      | none => rw [hl] at h; cases h
      | some r1 =>
        obtain ⟨g1, nw⟩ := r1
        rw [hl] at h
        have hds : ∀ d ∈ node.WaitingFor, d ∈ g0.changes := by
          rw [hwf]; exact hc.deps_listed a ha
        obtain ⟨hs1, hm1, ht, hf⟩ :=
          markChangesToWaitLoop_spec ih _ g (g1, nw) hds hs hm hl
        rw [hwf] at ht hf
        cases nw with
        | true =>
          simp only [if_true] at h
          have hdw : g0.DependsOnWaiting a := (dependsOnWaiting_iff g0 a).mpr (ht rfl)
          cases hmk : g1.MarkNeedsWaiting a with
          | none => rw [hmk] at h; cases h
          | some g2 =>
            rw [hmk] at h
            injection h with h; subst h
            obtain ⟨hs2, hma, hinv⟩ := MarkNeedsWaiting_step hmk
            refine ⟨hs1.trans hs2, ?_, ?_, fun _ => hma⟩
            · intro b hb
              rcases hinv b hb with rfl | hb1
              · exact Or.inr ⟨ha, hdw⟩
              · exact hm1 b hb1
            · simp [hdw]
        | false =>
          simp only [Bool.false_eq_true, if_false] at h
          have hndw : ¬ g0.DependsOnWaiting a := by
            intro hdw
            obtain ⟨d, hd, hne⟩ := (dependsOnWaiting_iff g0 a).mp hdw
            exact hf rfl d hd hne
          cases hn1 : g1.heap[a]? with
          | none => rw [hn1] at h; cases h
          | some node1 =>
            rw [hn1] at h
            injection h with h; subst h
            refine ⟨hs1, hm1, ?_, fun hdw => absurd hdw hndw⟩
            have hiff : decide (node1.Change.WaitOp ≠ ClusterChangeWaitOp.Noop) = true ↔
                g1.WaitOpNonNoop a := by
              rw [decide_eq_true_iff]
              constructor
              · intro hne; exact ⟨node1, hn1, hne⟩
              · rintro ⟨m, hm', hne⟩
                rw [hn1] at hm'; injection hm' with hm'; subst hm'; exact hne
            show decide (node1.Change.WaitOp ≠ ClusterChangeWaitOp.Noop) = true ↔ _
            rw [hiff]
            constructor
            · intro hw
              rcases (hs.trans hs1).waitOpNonNoop_inv hw with h0 | hmk
              · exact Or.inl h0
              · rcases hm1 a hmk with h0 | ⟨_, hdw⟩
                · exact Or.inl (isMarked_waitOpNonNoop h0)
                · exact Or.inr hdw
            · rintro (h0 | hdw)
              · exact (hs.trans hs1).waitOpNonNoop_mono h0
              · exact absurd hdw hndw

/-- When the loop of `markChangesToWait` gives no result, the visit of one of the
dependencies gave none. -/
theorem markChangesToWaitLoop_none {g0 : ChangeGraph}
    {visit : ChangeGraph → Nat → Option (ChangeGraph × Bool)} (hv : VisitSpec g0 visit) :
    ∀ (ds : List Nat) (g : ChangeGraph), (∀ d ∈ ds, d ∈ g0.changes) →
      MarkStep g0 g → MarksSound g0 g →
      markChangesToWaitLoop visit g ds = none →
      ∃ d ∈ ds, ∃ g1, MarkStep g0 g1 ∧ MarksSound g0 g1 ∧ visit g1 d = none := by
  intro ds
  induction ds with
  | nil =>
    intro g _ _ _ h
    simp [markChangesToWaitLoop] at h
  | cons d rest ih =>
    intro g hds hs hm h
    simp only [markChangesToWaitLoop] at h
    cases hvd : visit g d with
    | none => exact ⟨d, List.mem_cons_self _ _, g, hs, hm, hvd⟩
    | some r1 =>
      obtain ⟨g1, b⟩ := r1
      obtain ⟨hs1, hm1, _, _⟩ :=
        hv g d (g1, b) hs hm (hds d (List.mem_cons_self _ _)) hvd
      rw [hvd] at h
      cases b with
      | true => simp at h
      | false =>
        simp only at h
        obtain ⟨e, he, g2, hs2, hm2, hn⟩ :=
          ih g1 (fun x hx => hds x (List.mem_cons_of_mem _ hx)) (hs.trans hs1) hm1 h
        exact ⟨e, List.mem_cons_of_mem _ he, g2, hs2, hm2, hn⟩

/-- After a mark step every address of the old store holds a node. -/
theorem lookup_of_lt {g0 g : ChangeGraph} (hs : MarkStep g0 g) {a : Nat}
    (h : a < g0.heap.length) : ∃ n, g.heap[a]? = some n := by
  have : a < g.heap.length := by rw [hs.length_eq]; exact h
  exact ⟨_, List.getElem?_eq_getElem this⟩

/-- When `markChangesToWait` runs out of fuel at a listed node of a well-formed graph,
there is a chain of `fuel` dependency edges from that node. -/
theorem markChangesToWait_none (g0 : ChangeGraph) (hc : g0.Closed) :
    ∀ (fuel : Nat) (g : ChangeGraph) (a : Nat), MarkStep g0 g → MarksSound g0 g →
      a ∈ g0.changes → markChangesToWait fuel g a = none →
      ∃ l : List Nat, l.length = fuel ∧ List.Chain g0.DependsOn a l ∧
        ∀ x ∈ l, x ∈ g0.changes := by
  intro fuel
  induction fuel with
  | zero =>
    intro g a _ _ _ _
    exact ⟨[], rfl, List.Chain.nil, by simp⟩
  | succ fuel ih =>
    intro g a hs hm ha h
    simp only [markChangesToWait] at h
    obtain ⟨node, hn⟩ := lookup_of_lt hs (hc.listed_lt a ha)
    rw [hn] at h
    simp only at h
    have hwf : node.WaitingFor = g0.WaitingFor a := by
      rw [← hs.waitingFor_eq a]
      simp [ChangeGraph.WaitingFor, hn]
    have hds : ∀ d ∈ node.WaitingFor, d ∈ g0.changes := by
      rw [hwf]; exact hc.deps_listed a ha
    cases hl : markChangesToWaitLoop (markChangesToWait fuel) g node.WaitingFor with
    | none =>
      obtain ⟨d, hd, g1, hs1, hm1, hnone⟩ :=
        markChangesToWaitLoop_none (markChangesToWait_spec g0 hc fuel) _ g hds hs hm hl
      rw [hwf] at hd
      obtain ⟨l, hlen, hch, hmem⟩ := ih g1 d hs1 hm1 (hc.deps_listed a ha d hd) hnone
      refine ⟨d :: l, by simp [hlen], List.Chain.cons hd hch, ?_⟩
      intro x hx
      rcases List.mem_cons.mp hx with rfl | hx
      · exact hc.deps_listed a ha _ hd
      · exact hmem x hx
    | some r1 =>
      obtain ⟨g1, nw⟩ := r1
      rw [hl] at h
      obtain ⟨hs1, _, _, _⟩ :=
        markChangesToWaitLoop_spec (markChangesToWait_spec g0 hc fuel) _ g (g1, nw) hds hs hm
          hl
      obtain ⟨node1, hn1⟩ := lookup_of_lt (hs.trans hs1) (hc.listed_lt a ha)
      cases nw with
      | true =>
        simp [ChangeGraph.MarkNeedsWaiting, hn1] at h
      | false =>
        simp [hn1] at h

/-- In a well-formed acyclic graph a chain of dependency edges from a listed node has
fewer edges than the store has nodes. -/
theorem chain_length_lt (g0 : ChangeGraph) (hc : g0.Closed) (hac : g0.Acyclic) (a : Nat)
    (ha : a ∈ g0.changes) (l : List Nat) (hch : List.Chain g0.DependsOn a l)
    (hl : ∀ x ∈ l, x ∈ g0.changes) : l.length < g0.heap.length := by
  have hmem : ∀ x ∈ a :: l, x ∈ g0.changes := by
    intro x hx
    rcases List.mem_cons.mp hx with rfl | hx
    · exact ha
    · exact hl x hx
  have hpw : List.Pairwise (Relation.TransGen g0.DependsOn) (a :: l) :=
    List.chain_iff_pairwise.mp (hch.imp (fun _ _ h => Relation.TransGen.single h))
  have hnd : (a :: l).Nodup := by
    refine List.Pairwise.imp_of_mem ?_ hpw
    intro x y hx _ hxy hEq
    subst hEq
    exact hac x (hmem x hx) hxy
  have hsub : (a :: l) ⊆ List.range g0.heap.length := by
    intro x hx
    exact List.mem_range.mpr (hc.listed_lt x (hmem x hx))
  have := (List.subperm_of_subset hnd hsub).length_le
  simp at this
  omega

/-- Termination: on a well-formed acyclic graph `markChangesToWait` returns at every
listed node, once the fuel is at least the size of the store. -/
theorem markChangesToWait_some (g0 : ChangeGraph) (hc : g0.Closed) (hac : g0.Acyclic)
    (fuel : Nat) (hf : g0.heap.length ≤ fuel) (g : ChangeGraph) (a : Nat)
    (hs : MarkStep g0 g) (hm : MarksSound g0 g) (ha : a ∈ g0.changes) :
    ∃ r, markChangesToWait fuel g a = some r := by
  cases h : markChangesToWait fuel g a with
  | some r => exact ⟨r, rfl⟩
  | none =>
    obtain ⟨l, hlen, hch, hmem⟩ := markChangesToWait_none g0 hc fuel g a hs hm ha h
    have := chain_length_lt g0 hc hac a ha l hch hmem
    omega

/-- The loop of `AllMatching` with the closure of `Calculate` returns, adds only sound
marks and marks every visited node that depends on a waiting node. -/
theorem allMatchingLoop_mark (g0 : ChangeGraph) (hc : g0.Closed) (hac : g0.Acyclic)
    (fuel : Nat) (hf : g0.heap.length ≤ fuel) :
    ∀ (as : List Nat) (g : ChangeGraph), (∀ a ∈ as, a ∈ g0.changes) →
      MarkStep g0 g → MarksSound g0 g →
      ∃ g1 res, ChangeGraph.allMatchingLoop (markMatchFunc fuel) g as = some (g1, res) ∧
        MarkStep g g1 ∧ MarksSound g0 g1 ∧
        ∀ a ∈ as, g0.DependsOnWaiting a → g1.isMarked a = true := by
  intro as
  induction as with
  | nil =>
    intro g _ hs hm
    exact ⟨g, [], rfl, MarkStep.refl g, hm, by simp⟩
  | cons a rest ih =>
    intro g hmem hs hm
    obtain ⟨r, hr⟩ := markChangesToWait_some g0 hc hac fuel hf g a hs hm
      (hmem a (List.mem_cons_self _ _))
    obtain ⟨hs1, hm1, _, hmk⟩ := markChangesToWait_spec g0 hc fuel g a r hs hm
      (hmem a (List.mem_cons_self _ _)) hr
    obtain ⟨g2, res, hloop, hs2, hm2, hall⟩ :=
      ih r.1 (fun x hx => hmem x (List.mem_cons_of_mem _ hx)) (hs.trans hs1) hm1
    refine ⟨g2, res, ?_, hs1.trans hs2, hm2, ?_⟩
    · simp only [ChangeGraph.allMatchingLoop, markMatchFunc, hr, hloop]
      simp
    · intro x hx hdw
      rcases List.mem_cons.mp hx with rfl | hx
      · exact hs2.isMarked_mono _ (hmk hdw)
      · exact hall x hx hdw

/-- The wait-propagation pass on a well-formed acyclic graph returns a graph that is a mark
step of the given one, whose marks are sound, and in which every listed node that
depends on a waiting node is marked. -/
theorem markAllChangesToWait_spec (g : ChangeGraph) (hc : g.Closed) (hac : g.Acyclic)
    (fuel : Nat) (hf : g.heap.length ≤ fuel) :
    ∃ marked, markAllChangesToWait fuel g = some marked ∧ MarkStep g marked ∧
      MarksSound g marked ∧
      ∀ a ∈ g.changes, g.DependsOnWaiting a → marked.isMarked a = true := by
  obtain ⟨g1, res, hloop, hs, hm, hall⟩ :=
    allMatchingLoop_mark g hc hac fuel hf g.changes g (fun _ h => h) (MarkStep.refl g)
      (fun _ h => Or.inl h)
  refine ⟨g1, ?_, hs, hm, hall⟩
  simp [markAllChangesToWait, ChangeGraph.AllMatching, hloop]

/-- The loop with no early stop: it only adds sound marks; it returns true only if some
dependency needs waiting, and false only if none does. -/
theorem markChangesToWaitLoopNoStop_spec {g0 : ChangeGraph}
    {visit : ChangeGraph → Nat → Option (ChangeGraph × Bool)} (hv : VisitSpec g0 visit) :
    ∀ (ds : List Nat) (g : ChangeGraph) (r : ChangeGraph × Bool),
      (∀ d ∈ ds, d ∈ g0.changes) →
      MarkStep g0 g → MarksSound g0 g → markChangesToWaitLoopNoStop visit g ds = some r →
      MarkStep g r.1 ∧ MarksSound g0 r.1 ∧
        (r.2 = true → ∃ d ∈ ds, g0.WaitOpNonNoop d ∨ g0.DependsOnWaiting d) ∧
        (r.2 = false → ∀ d ∈ ds, ¬ (g0.WaitOpNonNoop d ∨ g0.DependsOnWaiting d)) := by
  intro ds
  induction ds with
  | nil =>
    intro g r _ hs hm h
    simp only [markChangesToWaitLoopNoStop] at h
    injection h with h; subst h
    exact ⟨MarkStep.refl g, hm, by simp, by simp⟩
  | cons d rest ih =>
    intro g r hds hs hm h
    simp only [markChangesToWaitLoopNoStop] at h
    cases hvd : visit g d with
    | none => rw [hvd] at h; cases h
    | some r1 =>
      obtain ⟨g1, b⟩ := r1
      obtain ⟨hs1, hm1, hb, _⟩ :=
        hv g d (g1, b) hs hm (hds d (List.mem_cons_self _ _)) hvd
      rw [hvd] at h
      simp only at h
      cases hrest : markChangesToWaitLoopNoStop visit g1 rest with
      | none => rw [hrest] at h; cases h
      | some r2 =>
        obtain ⟨g2, b2⟩ := r2
        rw [hrest] at h
        simp only at h
        injection h with h; subst h
        obtain ⟨hs2, hm2, ht, hf⟩ :=
          ih g1 (g2, b2) (fun x hx => hds x (List.mem_cons_of_mem _ hx)) (hs.trans hs1) hm1
            hrest
        refine ⟨hs1.trans hs2, hm2, ?_, ?_⟩
        · intro hr
          rcases Bool.or_eq_true_iff.mp hr with hb1 | hb2
          · exact ⟨d, List.mem_cons_self _ _, hb.mp hb1⟩
          · obtain ⟨e, he, hne⟩ := ht hb2
            exact ⟨e, List.mem_cons_of_mem _ he, hne⟩
        · intro hr e he
          have hboth : b = false ∧ b2 = false := Bool.or_eq_false_iff.mp hr
          rcases List.mem_cons.mp he with rfl | he
          · intro hcon
            have := hb.mpr hcon
            rw [hboth.1] at this
            cases this
          · exact hf hboth.2 e he

/-- The visit with no early stop satisfies `VisitSpec` at every fuel. -/
theorem markChangesToWaitNoStop_spec (g0 : ChangeGraph) (hc : g0.Closed) :
    ∀ fuel, VisitSpec g0 (markChangesToWaitNoStop fuel) := by
  intro fuel
  induction fuel with
  | zero =>
    intro g a r _ _ _ h
    simp [markChangesToWaitNoStop] at h
  | succ fuel ih =>
    intro g a r hs hm ha h
    simp only [markChangesToWaitNoStop] at h
    cases hn : g.heap[a]? with
    | none => rw [hn] at h; cases h
    | some node =>
      rw [hn] at h
      simp only at h
      have hwf : node.WaitingFor = g0.WaitingFor a := by
        rw [← hs.waitingFor_eq a]
        simp [ChangeGraph.WaitingFor, hn]
      cases hl : markChangesToWaitLoopNoStop (markChangesToWaitNoStop fuel) g node.WaitingFor with
      | none => rw [hl] at h; cases h
      | some r1 =>
        obtain ⟨g1, nw⟩ := r1
        rw [hl] at h
        have hds : ∀ d ∈ node.WaitingFor, d ∈ g0.changes := by
          rw [hwf]; exact hc.deps_listed a ha
        obtain ⟨hs1, hm1, ht, hf⟩ :=
          markChangesToWaitLoopNoStop_spec ih _ g (g1, nw) hds hs hm hl
        rw [hwf] at ht hf
        cases nw with
        | true =>
          simp only [if_true] at h
          have hdw : g0.DependsOnWaiting a := (dependsOnWaiting_iff g0 a).mpr (ht rfl)
          cases hmk : g1.MarkNeedsWaiting a with
          | none => rw [hmk] at h; cases h
          | some g2 =>
            rw [hmk] at h
            injection h with h; subst h
            obtain ⟨hs2, hma, hinv⟩ := MarkNeedsWaiting_step hmk
            refine ⟨hs1.trans hs2, ?_, ?_, fun _ => hma⟩
            · intro b hb
              rcases hinv b hb with rfl | hb1
              · exact Or.inr ⟨ha, hdw⟩
              · exact hm1 b hb1
            · simp [hdw]
        | false =>
          simp only [Bool.false_eq_true, if_false] at h
          have hndw : ¬ g0.DependsOnWaiting a := by
            intro hdw
            obtain ⟨d, hd, hne⟩ := (dependsOnWaiting_iff g0 a).mp hdw
            exact hf rfl d hd hne
          cases hn1 : g1.heap[a]? with
          | none => rw [hn1] at h; cases h
          | some node1 =>
            rw [hn1] at h
            injection h with h; subst h
            refine ⟨hs1, hm1, ?_, fun hdw => absurd hdw hndw⟩
            have hiff : decide (node1.Change.WaitOp ≠ ClusterChangeWaitOp.Noop) = true ↔
                g1.WaitOpNonNoop a := by
              rw [decide_eq_true_iff]
              constructor
              · intro hne; exact ⟨node1, hn1, hne⟩
              · rintro ⟨m, hm', hne⟩
                rw [hn1] at hm'; injection hm' with hm'; subst hm'; exact hne
            show decide (node1.Change.WaitOp ≠ ClusterChangeWaitOp.Noop) = true ↔ _
            rw [hiff]
            constructor
            · intro hw
              rcases (hs.trans hs1).waitOpNonNoop_inv hw with h0 | hmk
              · exact Or.inl h0
              · rcases hm1 a hmk with h0 | ⟨_, hdw⟩
                · exact Or.inl (isMarked_waitOpNonNoop h0)
                · exact Or.inr hdw
            · rintro (h0 | hdw)
              · exact (hs.trans hs1).waitOpNonNoop_mono h0
              · exact absurd hdw hndw

/-- When the loop with no early stop gives no result, the visit of one of the
dependencies gave none. -/
theorem markChangesToWaitLoopNoStop_none {g0 : ChangeGraph}
    {visit : ChangeGraph → Nat → Option (ChangeGraph × Bool)} (hv : VisitSpec g0 visit) :
    ∀ (ds : List Nat) (g : ChangeGraph), (∀ d ∈ ds, d ∈ g0.changes) →
      MarkStep g0 g → MarksSound g0 g →
      markChangesToWaitLoopNoStop visit g ds = none →
      ∃ d ∈ ds, ∃ g1, MarkStep g0 g1 ∧ MarksSound g0 g1 ∧ visit g1 d = none := by
  intro ds
  induction ds with
  | nil =>
    intro g _ _ _ h
    simp [markChangesToWaitLoopNoStop] at h
  | cons d rest ih =>
    intro g hds hs hm h
    simp only [markChangesToWaitLoopNoStop] at h
    cases hvd : visit g d with
    | none => exact ⟨d, List.mem_cons_self _ _, g, hs, hm, hvd⟩
    | some r1 =>
      obtain ⟨g1, b⟩ := r1
      obtain ⟨hs1, hm1, _, _⟩ :=
        hv g d (g1, b) hs hm (hds d (List.mem_cons_self _ _)) hvd
      rw [hvd] at h
      simp only at h
      cases hrest : markChangesToWaitLoopNoStop visit g1 rest with
      | some r2 => rw [hrest] at h; simp at h
      | none =>
        obtain ⟨e, he, g2, hs2, hm2, hn⟩ :=
          ih g1 (fun x hx => hds x (List.mem_cons_of_mem _ hx)) (hs.trans hs1) hm1 hrest
        exact ⟨e, List.mem_cons_of_mem _ he, g2, hs2, hm2, hn⟩

/-- When the visit with no early stop runs out of fuel at a listed node of a well-formed
graph, there is a chain of `fuel` dependency edges from that node. -/
theorem markChangesToWaitNoStop_none (g0 : ChangeGraph) (hc : g0.Closed) :
    ∀ (fuel : Nat) (g : ChangeGraph) (a : Nat), MarkStep g0 g → MarksSound g0 g →
      a ∈ g0.changes → markChangesToWaitNoStop fuel g a = none →
      ∃ l : List Nat, l.length = fuel ∧ List.Chain g0.DependsOn a l ∧
        ∀ x ∈ l, x ∈ g0.changes := by
  intro fuel
  induction fuel with
  | zero =>
    intro g a _ _ _ _
    exact ⟨[], rfl, List.Chain.nil, by simp⟩
  | succ fuel ih =>
    intro g a hs hm ha h
    simp only [markChangesToWaitNoStop] at h
    obtain ⟨node, hn⟩ := lookup_of_lt hs (hc.listed_lt a ha)
    rw [hn] at h
    simp only at h
    have hwf : node.WaitingFor = g0.WaitingFor a := by
      rw [← hs.waitingFor_eq a]
      simp [ChangeGraph.WaitingFor, hn]
    have hds : ∀ d ∈ node.WaitingFor, d ∈ g0.changes := by
      rw [hwf]; exact hc.deps_listed a ha
    cases hl : markChangesToWaitLoopNoStop (markChangesToWaitNoStop fuel) g node.WaitingFor with
    | none =>
      obtain ⟨d, hd, g1, hs1, hm1, hnone⟩ :=
        markChangesToWaitLoopNoStop_none (markChangesToWaitNoStop_spec g0 hc fuel) _ g hds hs hm hl
      rw [hwf] at hd
      obtain ⟨l, hlen, hch, hmem⟩ := ih g1 d hs1 hm1 (hc.deps_listed a ha d hd) hnone
      refine ⟨d :: l, by simp [hlen], List.Chain.cons hd hch, ?_⟩
      intro x hx
      rcases List.mem_cons.mp hx with rfl | hx
      · exact hc.deps_listed a ha _ hd
      · exact hmem x hx
    | some r1 =>
      obtain ⟨g1, nw⟩ := r1
      rw [hl] at h
      obtain ⟨hs1, _, _, _⟩ :=
        markChangesToWaitLoopNoStop_spec (markChangesToWaitNoStop_spec g0 hc fuel) _ g (g1, nw) hds hs hm
          hl
      obtain ⟨node1, hn1⟩ := lookup_of_lt (hs.trans hs1) (hc.listed_lt a ha)
      cases nw with
      | true =>
        simp [ChangeGraph.MarkNeedsWaiting, hn1] at h
      | false =>
        simp [hn1] at h

/-- Termination of the visit with no early stop on a well-formed acyclic graph. -/
theorem markChangesToWaitNoStop_some (g0 : ChangeGraph) (hc : g0.Closed) (hac : g0.Acyclic)
    (fuel : Nat) (hf : g0.heap.length ≤ fuel) (g : ChangeGraph) (a : Nat)
    (hs : MarkStep g0 g) (hm : MarksSound g0 g) (ha : a ∈ g0.changes) :
    ∃ r, markChangesToWaitNoStop fuel g a = some r := by
  cases h : markChangesToWaitNoStop fuel g a with
  | some r => exact ⟨r, rfl⟩
  | none =>
    obtain ⟨l, hlen, hch, hmem⟩ := markChangesToWaitNoStop_none g0 hc fuel g a hs hm ha h
    have := chain_length_lt g0 hc hac a ha l hch hmem
    omega

/-- The loop of `AllMatching` with the closure with no early stop returns, adds only
sound marks and marks every visited node that depends on a waiting node. -/
theorem allMatchingLoop_markNoStop (g0 : ChangeGraph) (hc : g0.Closed) (hac : g0.Acyclic)
    (fuel : Nat) (hf : g0.heap.length ≤ fuel) :
    ∀ (as : List Nat) (g : ChangeGraph), (∀ a ∈ as, a ∈ g0.changes) →
      MarkStep g0 g → MarksSound g0 g →
      ∃ g1 res, ChangeGraph.allMatchingLoop (markMatchFuncNoStop fuel) g as = some (g1, res) ∧
        MarkStep g g1 ∧ MarksSound g0 g1 ∧
        ∀ a ∈ as, g0.DependsOnWaiting a → g1.isMarked a = true := by
  intro as
  induction as with
  | nil =>
    intro g _ hs hm
    exact ⟨g, [], rfl, MarkStep.refl g, hm, by simp⟩
  | cons a rest ih =>
    intro g hmem hs hm
    obtain ⟨r, hr⟩ := markChangesToWaitNoStop_some g0 hc hac fuel hf g a hs hm
      (hmem a (List.mem_cons_self _ _))
    obtain ⟨hs1, hm1, _, hmk⟩ := markChangesToWaitNoStop_spec g0 hc fuel g a r hs hm
      (hmem a (List.mem_cons_self _ _)) hr
    obtain ⟨g2, res, hloop, hs2, hm2, hall⟩ :=
      ih r.1 (fun x hx => hmem x (List.mem_cons_of_mem _ hx)) (hs.trans hs1) hm1
    refine ⟨g2, res, ?_, hs1.trans hs2, hm2, ?_⟩
    · simp only [ChangeGraph.allMatchingLoop, markMatchFuncNoStop, hr, hloop]
      simp
    · intro x hx hdw
      rcases List.mem_cons.mp hx with rfl | hx
      · exact hs2.isMarked_mono _ (hmk hdw)
      · exact hall x hx hdw

/-- The pass with no early stop on a well-formed acyclic graph: same guarantees as the
pass with the early stop. -/
theorem markAllChangesToWaitNoStop_spec (g : ChangeGraph) (hc : g.Closed) (hac : g.Acyclic)
    (fuel : Nat) (hf : g.heap.length ≤ fuel) :
    ∃ marked, markAllChangesToWaitNoStop fuel g = some marked ∧ MarkStep g marked ∧
      MarksSound g marked ∧
      ∀ a ∈ g.changes, g.DependsOnWaiting a → marked.isMarked a = true := by
  obtain ⟨g1, res, hloop, hs, hm, hall⟩ :=
    allMatchingLoop_markNoStop g hc hac fuel hf g.changes g (fun _ h => h) (MarkStep.refl g)
      (fun _ h => Or.inl h)
  refine ⟨g1, ?_, hs, hm, hall⟩
  simp [markAllChangesToWaitNoStop, ChangeGraph.AllMatching, hloop]

/-- A graph whose edges all go down along a rank is acyclic. -/
theorem acyclic_of_rank (g : ChangeGraph) (rank : Nat → Nat)
    (h : ∀ a < g.heap.length, ∀ d ∈ g.WaitingFor a, rank d < rank a) : g.Acyclic := by
  have hedge : ∀ a d, g.DependsOn a d → rank d < rank a := by
    intro a d hd
    by_cases ha : a < g.heap.length
    · exact h a ha d hd
    · have : g.heap[a]? = none := List.getElem?_eq_none (Nat.le_of_not_lt ha)
      simp [ChangeGraph.DependsOn, ChangeGraph.WaitingFor, this] at hd
  have htrans : ∀ a d, Relation.TransGen g.DependsOn a d → rank d < rank a := by
    intro a d hd
    induction hd with
    | single h1 => exact hedge _ _ h1
    | tail _ h2 ih => exact lt_trans (hedge _ _ h2) ih
  intro a _ hcyc
  exact lt_irrefl _ (htrans a a hcyc)

/-- When the builder returns `g` and the pass on `g` returns `marked`, `Calculate` returns
the listed nodes of the pruned graph and the pruned graph. -/
theorem Calculate_ok {Diff : Type} (c : ClusterChangeSet Diff)
    (NewChangeGraph : List wrappedClusterChange → Except String ChangeGraph)
    (g marked : ChangeGraph) (fuel : Nat)
    (hg : NewChangeGraph (c.changes.map
      (fun change => wrappedClusterChange.mk (c.clusterChangeFactory change))) = Except.ok g)
    (hm : markAllChangesToWait fuel g = some marked) :
    c.Calculate fuel NewChangeGraph =
      some (Except.ok ((marked.RemoveMatching pruneMatchFunc).All,
        marked.RemoveMatching pruneMatchFunc)) := by
  simp [ClusterChangeSet.Calculate, hg, hm]

/-- The predicate `Calculate` gives to `RemoveMatching` holds of a node exactly when its
`ApplyOp` is Noop and its `WaitOp` is Noop. -/
theorem isMatching_prune_iff (g : ChangeGraph) (a : Nat) :
    g.isMatching pruneMatchFunc a = true ↔
      ∃ node, g.heap[a]? = some node ∧
        node.Change.ClusterChange.ApplyOp = ClusterChangeApplyOp.Noop ∧
        node.Change.ClusterChange.WaitOp = ClusterChangeWaitOp.Noop := by
  unfold ChangeGraph.isMatching
  cases hn : g.heap[a]? with
  | none => simp
  | some node => simp [pruneMatchFunc]

/-- The nodes left by the prune pass are the listed nodes of which the predicate does not
hold. -/
theorem mem_removeMatching_all (g : ChangeGraph) (a : Nat) :
    a ∈ (g.RemoveMatching pruneMatchFunc).All ↔
      a ∈ g.changes ∧ g.isMatching pruneMatchFunc a = false := by
  simp [ChangeGraph.RemoveMatching, ChangeGraph.All, List.mem_filter]

/-- The prune predicate does not hold of a node whose `WaitOp` is not Noop. -/
theorem waitOpNonNoop_not_matching {g : ChangeGraph} {a : Nat} (h : g.WaitOpNonNoop a) :
    g.isMatching pruneMatchFunc a = false := by
  cases hm : g.isMatching pruneMatchFunc a with
  | false => rfl
  | true =>
    obtain ⟨node, hn, _, hw⟩ := (isMatching_prune_iff g a).mp hm
    obtain ⟨node1, hn1, hne⟩ := h
    rw [hn] at hn1; injection hn1 with hn1; subst hn1
    exact absurd hw hne

/-- Claim C2.  For every well-formed acyclic change graph `g` returned by the graph builder, with
fuel at least the size of the store, the wait-propagation pass of `Calculate` returns a
graph `marked` and `Calculate` returns a result, and every node of `g` that depends,
directly or through any number of intermediate nodes, on a node whose `WaitOp` is not
Noop is marked "needs waiting" in `marked`, has a `WaitOp` that is not Noop there, and is
in the list `Calculate` returns (it survives pruning), whatever its own `ApplyOp` and
`WaitOp` were. -/
theorem C2_wait_propagation_reaches_every_dependent {Diff : Type}
    (c : ClusterChangeSet Diff)
    (NewChangeGraph : List wrappedClusterChange → Except String ChangeGraph)
    (g : ChangeGraph) (fuel : Nat)
    (hg : NewChangeGraph (c.changes.map
      (fun change => wrappedClusterChange.mk (c.clusterChangeFactory change))) = Except.ok g)
    (hc : g.Closed) (hac : g.Acyclic) (hf : g.heap.length ≤ fuel) :
    ∃ marked result pruned,
      markAllChangesToWait fuel g = some marked ∧
      c.Calculate fuel NewChangeGraph = some (Except.ok (result, pruned)) ∧
      ∀ a ∈ g.changes, g.DependsOnWaiting a →
        marked.isMarked a = true ∧ marked.WaitOpNonNoop a ∧ a ∈ result := by
  obtain ⟨marked, hm, hs, _, hall⟩ := markAllChangesToWait_spec g hc hac fuel hf
  refine ⟨marked, _, _, hm, Calculate_ok c NewChangeGraph g marked fuel hg hm, ?_⟩
  intro a ha hdw
  have hmk := hall a ha hdw
  have hw := isMarked_waitOpNonNoop hmk
  refine ⟨hmk, hw, ?_⟩
  rw [mem_removeMatching_all, hs.changes_eq]
  exact ⟨ha, waitOpNonNoop_not_matching hw⟩

/-- The graph of the chain is well formed. -/
theorem chainGraph_closed : chainGraph.Closed :=
  ⟨by decide, by decide⟩

/-- The graph of the chain is acyclic. -/
theorem chainGraph_acyclic : chainGraph.Acyclic :=
  acyclic_of_rank chainGraph (fun a => 3 - a) (by decide)

/-- The chain A depends on B depends on C, with B Noop/Noop and C Update/OK: B (node 1)
depends on a waiting node, `Calculate` returns the three nodes, and B is marked, has a
`WaitOp` that is not Noop and survives pruning. -/
theorem C2_witness :
    exampleNewChangeGraph chainEdges (chainChangeSet.changes.map
      (fun change => wrappedClusterChange.mk (chainChangeSet.clusterChangeFactory change)))
        = Except.ok chainGraph ∧
    chainGraph.DependsOnWaiting 1 ∧
    (∃ pruned, chainChangeSet.Calculate 3 (exampleNewChangeGraph chainEdges)
        = some (Except.ok ([0, 1, 2], pruned)) ∧ pruned.isMarked 1 = true) ∧
    ∃ marked result pruned,
      markAllChangesToWait 3 chainGraph = some marked ∧
      chainChangeSet.Calculate 3 (exampleNewChangeGraph chainEdges)
        = some (Except.ok (result, pruned)) ∧
      marked.isMarked 1 = true ∧ marked.WaitOpNonNoop 1 ∧ 1 ∈ result := by
  have hdw : chainGraph.DependsOnWaiting 1 :=
    ⟨2, Relation.TransGen.single (by unfold ChangeGraph.DependsOn; decide),
      ⟨_, rfl, by decide⟩⟩
  obtain ⟨marked, result, pruned, h1, h2, h3⟩ :=
    C2_wait_propagation_reaches_every_dependent chainChangeSet
      (exampleNewChangeGraph chainEdges) chainGraph 3 rfl chainGraph_closed
      chainGraph_acyclic (by decide)
  exact ⟨rfl, hdw, ⟨_, rfl, rfl⟩, marked, result, pruned, h1, h2, h3 1 (by decide) hdw⟩

/-- Claim C3.  For every well-formed acyclic change graph `g` returned by the graph builder, with
fuel at least the size of the store, `Calculate` returns a list `result` and a graph
`pruned` whose nodes are `result`; a node of `g` is missing from `result` if and only if,
in the graph `marked` left by the wait-propagation pass, its `ApplyOp` is Noop and its
`WaitOp` is Noop; and `result` lists the nodes kept in the order of `g` (it is a sublist
of the nodes of `g`), each as often as `g` lists it. -/
theorem C3_prune_iff_noop_after_propagation {Diff : Type}
    (c : ClusterChangeSet Diff)
    (NewChangeGraph : List wrappedClusterChange → Except String ChangeGraph)
    (g : ChangeGraph) (fuel : Nat)
    (hg : NewChangeGraph (c.changes.map
      (fun change => wrappedClusterChange.mk (c.clusterChangeFactory change))) = Except.ok g)
    (hc : g.Closed) (hac : g.Acyclic) (hf : g.heap.length ≤ fuel) :
    ∃ marked result pruned,
      markAllChangesToWait fuel g = some marked ∧
      c.Calculate fuel NewChangeGraph = some (Except.ok (result, pruned)) ∧
      pruned.All = result ∧
      (∀ a ∈ g.changes, a ∉ result ↔
        ∃ node, marked.heap[a]? = some node ∧
          node.Change.ClusterChange.ApplyOp = ClusterChangeApplyOp.Noop ∧
          node.Change.ClusterChange.WaitOp = ClusterChangeWaitOp.Noop) ∧
      result.Sublist g.changes ∧
      (∀ a ∈ result, result.count a = g.changes.count a) := by
  obtain ⟨marked, hm, hs, _, _⟩ := markAllChangesToWait_spec g hc hac fuel hf
  refine ⟨marked, _, _, hm, Calculate_ok c NewChangeGraph g marked fuel hg hm, rfl, ?_, ?_, ?_⟩
  · intro a ha
    rw [mem_removeMatching_all, hs.changes_eq, ← isMatching_prune_iff]
    constructor
    · intro h
      cases hmt : marked.isMatching pruneMatchFunc a with
      | true => rfl
      | false => exact absurd ⟨ha, hmt⟩ h
    · intro h hcon
      rw [h] at hcon
      cases hcon.2
  · show (marked.changes.filter _).Sublist g.changes
    rw [hs.changes_eq]
    exact List.filter_sublist _
  · intro a ha
    have hmem := (mem_removeMatching_all marked a).mp ha
    show (marked.changes.filter _).count a = g.changes.count a
    rw [hs.changes_eq, List.count_filter]
    simp [hmem.2]

/-- The chain A, B, C at the statement of claim C3. -/
theorem C3_witness :
    exampleNewChangeGraph chainEdges (chainChangeSet.changes.map
      (fun change => wrappedClusterChange.mk (chainChangeSet.clusterChangeFactory change)))
        = Except.ok chainGraph ∧
    ∃ marked result pruned,
      markAllChangesToWait 3 chainGraph = some marked ∧
      chainChangeSet.Calculate 3 (exampleNewChangeGraph chainEdges)
        = some (Except.ok (result, pruned)) ∧
      pruned.All = result ∧
      (∀ a ∈ chainGraph.changes, a ∉ result ↔
        ∃ node, marked.heap[a]? = some node ∧
          node.Change.ClusterChange.ApplyOp = ClusterChangeApplyOp.Noop ∧
          node.Change.ClusterChange.WaitOp = ClusterChangeWaitOp.Noop) ∧
      result.Sublist chainGraph.changes ∧
      (∀ a ∈ result, result.count a = chainGraph.changes.count a) :=
  ⟨rfl, C3_prune_iff_noop_after_propagation chainChangeSet
      (exampleNewChangeGraph chainEdges) chainGraph 3 rfl chainGraph_closed
      chainGraph_acyclic (by decide)⟩

/-- Claim C7.  The method `wrappedClusterChange.Op` maps the `ApplyOp` of the wrapped change as
follows, whatever the other fields of the change: Add to Upsert, Update to Upsert, Delete
to Delete, Noop to Noop; for any other value `raw` it returns no value and fails with the
panic message "Unknown change apply operation: " followed by `raw`. -/
theorem C7_op_from_applyOp (waitOp : ClusterChangeWaitOp) (marked : Bool) :
    wrappedClusterChange.Op
        { ClusterChange := { applyOp := ClusterChangeApplyOp.Add, waitOp := waitOp,
                             markedNeedsWaiting := marked } }
      = Except.ok ActualChangeOp.Upsert ∧
    wrappedClusterChange.Op
        { ClusterChange := { applyOp := ClusterChangeApplyOp.Update, waitOp := waitOp,
                             markedNeedsWaiting := marked } }
      = Except.ok ActualChangeOp.Upsert ∧
    wrappedClusterChange.Op
        { ClusterChange := { applyOp := ClusterChangeApplyOp.Delete, waitOp := waitOp,
                             markedNeedsWaiting := marked } }
      = Except.ok ActualChangeOp.Delete ∧
    wrappedClusterChange.Op
        { ClusterChange := { applyOp := ClusterChangeApplyOp.Noop, waitOp := waitOp,
                             markedNeedsWaiting := marked } }
      = Except.ok ActualChangeOp.Noop ∧
    ∀ raw : String,
      wrappedClusterChange.Op
          { ClusterChange := { applyOp := ClusterChangeApplyOp.Other raw, waitOp := waitOp,
                               markedNeedsWaiting := marked } }
        = Except.error ("Unknown change apply operation: " ++ raw) :=
  ⟨rfl, rfl, rfl, rfl, fun _ => rfl⟩

/-- Claim C8.  For every well-formed acyclic change graph, with fuel at least the size of the
store, the wait-propagation pass returns a graph with the same listed nodes and the same
store size in which every node has the same `ApplyOp`, hence the same `Op`, the same
`WaitingFor` and the same wait operation computed at construction as before: each node
is unchanged or is the old node after `MarkNeedsWaiting`. -/
theorem C8_propagation_keeps_applyOp_and_edges (g : ChangeGraph) (fuel : Nat)
    (hc : g.Closed) (hac : g.Acyclic) (hf : g.heap.length ≤ fuel) :
    ∃ marked, markAllChangesToWait fuel g = some marked ∧
      marked.changes = g.changes ∧ marked.heap.length = g.heap.length ∧
      ∀ (a : Nat) (node : Change), g.heap[a]? = some node →
        ∃ node1, marked.heap[a]? = some node1 ∧
          node1.Change.ClusterChange.ApplyOp = node.Change.ClusterChange.ApplyOp ∧
          node1.Change.Op = node.Change.Op ∧
          node1.WaitingFor = node.WaitingFor ∧
          node1.Change.ClusterChange.waitOp = node.Change.ClusterChange.waitOp ∧
          (node1 = node ∨ node1 = { node with Change := node.Change.MarkNeedsWaiting }) := by
  obtain ⟨marked, hm, hs, _, _⟩ := markAllChangesToWait_spec g hc hac fuel hf
  refine ⟨marked, hm, hs.changes_eq, hs.length_eq, ?_⟩
  intro a node hn
  obtain ⟨node1, hn1, e⟩ := hs.node a node hn
  refine ⟨node1, hn1, ?_, ?_, ?_, ?_, e⟩ <;> rcases e with rfl | rfl <;> rfl

/-- The chain A, B, C at the statement of claim C8. -/
theorem C8_witness :
    chainGraph.Closed ∧ chainGraph.Acyclic ∧
    ∃ marked, markAllChangesToWait 3 chainGraph = some marked ∧
      marked.changes = chainGraph.changes ∧ marked.heap.length = chainGraph.heap.length ∧
      ∀ (a : Nat) (node : Change), chainGraph.heap[a]? = some node →
        ∃ node1, marked.heap[a]? = some node1 ∧
          node1.Change.ClusterChange.ApplyOp = node.Change.ClusterChange.ApplyOp ∧
          node1.Change.Op = node.Change.Op ∧
          node1.WaitingFor = node.WaitingFor ∧
          node1.Change.ClusterChange.waitOp = node.Change.ClusterChange.waitOp ∧
          (node1 = node ∨ node1 = { node with Change := node.Change.MarkNeedsWaiting }) :=
  ⟨chainGraph_closed, chainGraph_acyclic,
    C8_propagation_keeps_applyOp_and_edges chainGraph 3 chainGraph_closed
      chainGraph_acyclic (by decide)⟩

/-- After a complete pass a node is marked exactly when it was marked before or is a
listed node that depends on a waiting node. -/
theorem isMarked_iff_of_pass {g marked : ChangeGraph} (hs : MarkStep g marked)
    (hm : MarksSound g marked)
    (hall : ∀ a ∈ g.changes, g.DependsOnWaiting a → marked.isMarked a = true) (a : Nat) :
    marked.isMarked a = true ↔
      g.isMarked a = true ∨ (a ∈ g.changes ∧ g.DependsOnWaiting a) := by
  constructor
  · exact hm a
  · rintro (h | ⟨ha, hdw⟩)
    · exact hs.isMarked_mono a h
    · exact hall a ha hdw

/-- The call `MarkNeedsWaiting` leaves a marked node as it is. -/
theorem markNeedsWaiting_of_marked (n : Change)
    (h : n.Change.ClusterChange.markedNeedsWaiting = true) :
    ({ n with Change := n.Change.MarkNeedsWaiting } : Change) = n := by
  obtain ⟨⟨⟨ao, wo, mk⟩⟩, wf⟩ := n
  simp only at h
  subst h
  rfl

/-- Two mark steps of one graph with the same marks are the same graph. -/
theorem MarkStep.eq_of_isMarked_eq {g m1 m2 : ChangeGraph} (h1 : MarkStep g m1)
    (h2 : MarkStep g m2) (hmk : ∀ a, m1.isMarked a = m2.isMarked a) : m1 = m2 := by
  have hheap : m1.heap = m2.heap := by
    apply List.ext_getElem?
    intro a
    cases hn : g.heap[a]? with
    | none =>
      have hle := List.getElem?_eq_none_iff.mp hn
      rw [List.getElem?_eq_none (by rw [h1.length_eq]; exact hle),
        List.getElem?_eq_none (by rw [h2.length_eq]; exact hle)]
    | some n =>
      obtain ⟨n1, hn1, e1⟩ := h1.node a n hn
      obtain ⟨n2, hn2, e2⟩ := h2.node a n hn
      rw [hn1, hn2]
      have hk := hmk a
      simp only [ChangeGraph.isMarked, hn1, hn2] at hk
      congr 1
      rcases e1 with rfl | rfl <;> rcases e2 with rfl | rfl
      · rfl
      · exact (markNeedsWaiting_of_marked _ (by rw [hk]; rfl)).symm
      · exact markNeedsWaiting_of_marked _ (by rw [← hk]; rfl)
      · rfl
  obtain ⟨heap1, ch1⟩ := m1
  obtain ⟨heap2, ch2⟩ := m2
  have hch : ch1 = ch2 := h1.changes_eq.trans h2.changes_eq.symm
  simp only at hheap
  rw [hheap, hch]

/-- Claim C9.  For every well-formed acyclic change graph, with fuel at least the size of the
store, the wait-propagation pass as coded (the scan of the dependencies stops at the
first one that needs waiting) and the pass with no early stop both return, they leave the
same nodes marked "needs waiting", and the graphs they return are equal. -/
theorem C9_early_stop_marks_same_nodes (g : ChangeGraph) (fuel : Nat)
    (hc : g.Closed) (hac : g.Acyclic) (hf : g.heap.length ≤ fuel) :
    ∃ marked markedNoStop,
      markAllChangesToWait fuel g = some marked ∧
      markAllChangesToWaitNoStop fuel g = some markedNoStop ∧
      (∀ a, marked.isMarked a = markedNoStop.isMarked a) ∧
      marked = markedNoStop := by
  obtain ⟨m1, hm1, hs1, hsd1, hall1⟩ := markAllChangesToWait_spec g hc hac fuel hf
  obtain ⟨m2, hm2, hs2, hsd2, hall2⟩ := markAllChangesToWaitNoStop_spec g hc hac fuel hf
  have hmk : ∀ a, m1.isMarked a = m2.isMarked a := by
    intro a
    rw [Bool.eq_iff_iff, isMarked_iff_of_pass hs1 hsd1 hall1,
      isMarked_iff_of_pass hs2 hsd2 hall2]
  exact ⟨m1, m2, hm1, hm2, hmk, hs1.eq_of_isMarked_eq hs2 hmk⟩

/-- The chain A, B, C at the statement of claim C9. -/
theorem C9_witness :
    chainGraph.Closed ∧ chainGraph.Acyclic ∧
    ∃ marked markedNoStop,
      markAllChangesToWait 3 chainGraph = some marked ∧
      markAllChangesToWaitNoStop 3 chainGraph = some markedNoStop ∧
      (∀ a, marked.isMarked a = markedNoStop.isMarked a) ∧
      marked = markedNoStop :=
  ⟨chainGraph_closed, chainGraph_acyclic,
    C9_early_stop_marks_same_nodes chainGraph 3 chainGraph_closed chainGraph_acyclic
      (by decide)⟩

/-- A node with `ApplyOp` Noop and `WaitOp` Noop that depends on no waiting node stays
unmarked and is removed by the prune pass. -/
theorem inert_pruned {g marked : ChangeGraph} (hs : MarkStep g marked)
    (hsd : MarksSound g marked) (a : Nat) (node : Change) (hn : g.heap[a]? = some node)
    (hao : node.Change.ClusterChange.ApplyOp = ClusterChangeApplyOp.Noop)
    (hwo : node.Change.ClusterChange.WaitOp = ClusterChangeWaitOp.Noop)
    (hndw : ¬ g.DependsOnWaiting a) :
    marked.isMarked a = false ∧ a ∉ (marked.RemoveMatching pruneMatchFunc).All := by
  have hnw : ¬ g.WaitOpNonNoop a := by
    rintro ⟨n, hn', hne⟩
    rw [hn] at hn'; injection hn' with hn'; subst hn'
    exact hne hwo
  have hunm : marked.isMarked a = false := by
    cases hmk : marked.isMarked a with
    | false => rfl
    | true =>
      rcases hsd a hmk with h | ⟨_, h⟩
      · exact absurd (isMarked_waitOpNonNoop h) hnw
      · exact absurd h hndw
  obtain ⟨node1, hn1, e⟩ := hs.node a node hn
  have hnode1 : node1 = node := by
    rcases e with rfl | rfl
    · rfl
    · simp [ChangeGraph.isMarked, hn1, wrappedClusterChange.MarkNeedsWaiting,
        ClusterChange.MarkNeedsWaiting] at hunm
  subst hnode1
  have hmatch : marked.isMatching pruneMatchFunc a = true :=
    (isMatching_prune_iff marked a).mpr ⟨node1, hn1, hao, hwo⟩
  refine ⟨hunm, ?_⟩
  rw [mem_removeMatching_all]
  intro hcon
  rw [hmatch] at hcon
  cases hcon.2

/-- Claim C10.  For every well-formed acyclic change graph `g` returned by the graph builder, with
fuel at least the size of the store, `Calculate` returns, and the wait-propagation pass
sets the mark "needs waiting" only on nodes that depend, directly or transitively, on a
node whose `WaitOp` was not Noop before the pass; so a node of `g` whose `ApplyOp` is
Noop, whose `WaitOp` is Noop and that depends on no such node stays unmarked and is
neither in the list nor in the graph `Calculate` returns. -/
theorem C10_marks_only_dependents_of_waiting {Diff : Type}
    (c : ClusterChangeSet Diff)
    (NewChangeGraph : List wrappedClusterChange → Except String ChangeGraph)
    (g : ChangeGraph) (fuel : Nat)
    (hg : NewChangeGraph (c.changes.map
      (fun change => wrappedClusterChange.mk (c.clusterChangeFactory change))) = Except.ok g)
    (hc : g.Closed) (hac : g.Acyclic) (hf : g.heap.length ≤ fuel) :
    ∃ marked result pruned,
      markAllChangesToWait fuel g = some marked ∧
      c.Calculate fuel NewChangeGraph = some (Except.ok (result, pruned)) ∧
      (∀ a, marked.isMarked a = true → g.isMarked a = false → g.DependsOnWaiting a) ∧
      (∀ a ∈ g.changes, ∀ node, g.heap[a]? = some node →
        node.Change.ClusterChange.ApplyOp = ClusterChangeApplyOp.Noop →
        node.Change.ClusterChange.WaitOp = ClusterChangeWaitOp.Noop →
        ¬ g.DependsOnWaiting a →
        marked.isMarked a = false ∧ a ∉ result ∧ a ∉ pruned.All) := by
  obtain ⟨marked, hm, hs, hsd, _⟩ := markAllChangesToWait_spec g hc hac fuel hf
  refine ⟨marked, _, _, hm, Calculate_ok c NewChangeGraph g marked fuel hg hm, ?_, ?_⟩
  · intro a hmk hg0
    rcases hsd a hmk with h | ⟨_, h⟩
    · rw [hg0] at h; cases h
    · exact h
  · intro a _ node hn hao hwo hndw
    obtain ⟨h1, h2⟩ := inert_pruned hs hsd a node hn hao hwo hndw
    exact ⟨h1, h2, h2⟩

/-- A run that is still going after `k` iterations, in state `s1`, continues as the loop
started in `s1`. -/
theorem applyLoop_add {S T : Type} (A : ApplyingChanges S) (W : WaitingChanges T)
    (n : Nat) : ∀ (k : Nat) (s s1 : ApplyState S T), applyLoop A W n k s = (none, s1) →
      ∀ m, applyLoop A W n (k + m) s = applyLoop A W n m s1 := by
  intro k
  induction k with
  | zero =>
    intro s s1 h m
    simp only [applyLoop] at h
    injection h with _ h2
    subst h2
    simp
  | succ k ih =>
    intro s s1 h m
    have hk : k + 1 + m = (k + m) + 1 := by omega
    rw [hk]
    simp only [applyLoop] at h ⊢
    cases hit : applyIteration A W n s with
    | returned err s2 =>
      rw [hit] at h
      simp only at h
      injection h with h1 _
      cases h1
    | continued s2 =>
      rw [hit] at h
      simp only at h ⊢
      exact ih s2 s1 h m

/-- The iteration when the applying tracker returns an error. -/
theorem applyIteration_apply_error {S T : Type} (A : ApplyingChanges S)
    (W : WaitingChanges T) (n : Nat) (s : ApplyState S T) (err : String) (a1 : S)
    (h : A.Apply s.applyingChanges s.blockedChanges.Unblocked = (Except.error err, a1)) :
    applyIteration A W n s = Iteration.returned (Except.error err)
      { s with applyingChanges := a1
               calls := s.calls ++
                 [Call.Apply s.blockedChanges.Unblocked (Except.error err)] } := by
  simp only [applyIteration, h]

/-- The iteration when the waiting tracker is empty and the counts differ. -/
theorem applyIteration_inconsistent {S T : Type} (A : ApplyingChanges S)
    (W : WaitingChanges T) (n : Nat) (s : ApplyState S T) (applied : List Nat) (a1 : S)
    (h : A.Apply s.applyingChanges s.blockedChanges.Unblocked = (Except.ok applied, a1))
    (he : W.IsEmpty (W.Track s.waitingChanges applied) = true)
    (hne : n ≠ A.NumApplied a1) :
    applyIteration A W n s = Iteration.returned
      (Except.error (inconsistencyError n (A.NumApplied a1)))
      { s with applyingChanges := a1
               waitingChanges := W.Track s.waitingChanges applied
               calls := s.calls ++ [Call.Apply s.blockedChanges.Unblocked (Except.ok applied),
                 Call.Track applied, Call.IsEmpty true] ++
                 [Call.NumApplied (A.NumApplied a1)] } := by
  simp only [applyIteration, h, he, if_true, hne, ne_eq, not_false_eq_true]

/-- The iteration when the waiting tracker is empty and the counts agree. -/
theorem applyIteration_success {S T : Type} (A : ApplyingChanges S)
    (W : WaitingChanges T) (n : Nat) (s : ApplyState S T) (applied : List Nat) (a1 : S)
    (h : A.Apply s.applyingChanges s.blockedChanges.Unblocked = (Except.ok applied, a1))
    (he : W.IsEmpty (W.Track s.waitingChanges applied) = true)
    (hn : n = A.NumApplied a1) :
    applyIteration A W n s = Iteration.returned (Except.ok ())
      { s with applyingChanges := a1
               waitingChanges := W.Track s.waitingChanges applied
               calls := s.calls ++ [Call.Apply s.blockedChanges.Unblocked (Except.ok applied),
                 Call.Track applied, Call.IsEmpty true] ++
                 [Call.NumApplied (A.NumApplied a1)] } := by
  simp only [applyIteration, h, he, if_true, hn, ne_eq, not_true_eq_false, if_false]

/-- The iteration when `WaitForAny` returns an error. -/
theorem applyIteration_wait_error {S T : Type} (A : ApplyingChanges S)
    (W : WaitingChanges T) (n : Nat) (s : ApplyState S T) (applied : List Nat) (a1 : S)
    (err : String) (w2 : T)
    (h : A.Apply s.applyingChanges s.blockedChanges.Unblocked = (Except.ok applied, a1))
    (he : W.IsEmpty (W.Track s.waitingChanges applied) = false)
    (hw : W.WaitForAny (W.Track s.waitingChanges applied) = (Except.error err, w2)) :
    applyIteration A W n s = Iteration.returned (Except.error err)
      { s with applyingChanges := a1
               waitingChanges := w2
               calls := s.calls ++ [Call.Apply s.blockedChanges.Unblocked (Except.ok applied),
                 Call.Track applied, Call.IsEmpty false] ++
                 [Call.WaitForAny (Except.error err)] } := by
  simp only [applyIteration, h, he, hw, Bool.false_eq_true, if_false]

/-- The iteration when `WaitForAny` returns the changes that are done. -/
theorem applyIteration_continue {S T : Type} (A : ApplyingChanges S)
    (W : WaitingChanges T) (n : Nat) (s : ApplyState S T) (applied : List Nat) (a1 : S)
    (done : List Nat) (w2 : T)
    (h : A.Apply s.applyingChanges s.blockedChanges.Unblocked = (Except.ok applied, a1))
    (he : W.IsEmpty (W.Track s.waitingChanges applied) = false)
    (hw : W.WaitForAny (W.Track s.waitingChanges applied) = (Except.ok done, w2)) :
    applyIteration A W n s = Iteration.continued
      { applyingChanges := a1
        waitingChanges := w2
        blockedChanges := done.foldl (fun b change => b.Unblock change) s.blockedChanges
        calls := s.calls ++ [Call.Apply s.blockedChanges.Unblocked (Except.ok applied),
          Call.Track applied, Call.IsEmpty false] ++
          [Call.WaitForAny (Except.ok done)] } := by
  simp only [applyIteration, h, he, hw, Bool.false_eq_true, if_false]

/-- The empty log is ordered. -/
theorem CallsOrdered.nil (g : ChangeGraph) : CallsOrdered g [] := by
  intro before batch result later h
  cases before <;> cases h

/-- Adding a call at the end keeps the log ordered, when the call is not an `Apply` or
all dependencies of its batch were returned as done before. -/
theorem CallsOrdered.snoc {g : ChangeGraph} {calls : List Call} (h : CallsOrdered g calls)
    (e : Call)
    (he : ∀ batch result, e = Call.Apply batch result →
      ∀ n ∈ batch, ∀ d ∈ g.WaitingFor n,
        ∃ done, Call.WaitForAny (Except.ok done) ∈ calls ∧ d ∈ done) :
    CallsOrdered g (calls ++ [e]) := by
  intro before batch result later heq n hn d hd
  rcases List.eq_nil_or_concat later with hnil | ⟨later1, x, hcon⟩
  · subst hnil
    obtain ⟨h1, h2⟩ := List.append_inj' heq rfl
    injection h2 with h2 _
    subst h1
    exact he batch result h2 n hn d hd
  · rw [List.concat_eq_append] at hcon
    subst hcon
    have heq1 : calls ++ [e] = (before ++ Call.Apply batch result :: later1) ++ [x] := by
      simpa using heq
    obtain ⟨h1, _⟩ := List.append_inj' heq1 rfl
    exact h before batch result later1 h1 n hn d hd

/-- Adding a `Track` call keeps the log ordered. -/
theorem CallsOrdered.snoc_track {g : ChangeGraph} {calls : List Call}
    (h : CallsOrdered g calls) (applied : List Nat) :
    CallsOrdered g (calls ++ [Call.Track applied]) :=
  h.snoc _ (fun _ _ he => by cases he)

/-- Adding an `IsEmpty` call keeps the log ordered. -/
theorem CallsOrdered.snoc_isEmpty {g : ChangeGraph} {calls : List Call}
    (h : CallsOrdered g calls) (b : Bool) :
    CallsOrdered g (calls ++ [Call.IsEmpty b]) :=
  h.snoc _ (fun _ _ he => by cases he)

/-- Adding a `NumApplied` call keeps the log ordered. -/
theorem CallsOrdered.snoc_numApplied {g : ChangeGraph} {calls : List Call}
    (h : CallsOrdered g calls) (k : Nat) :
    CallsOrdered g (calls ++ [Call.NumApplied k]) :=
  h.snoc _ (fun _ _ he => by cases he)

/-- Adding a `WaitForAny` call keeps the log ordered. -/
theorem CallsOrdered.snoc_waitForAny {g : ChangeGraph} {calls : List Call}
    (h : CallsOrdered g calls) (r : Except String (List Nat)) :
    CallsOrdered g (calls ++ [Call.WaitForAny r]) :=
  h.snoc _ (fun _ _ he => by cases he)

/-- The loop over `doneChanges` keeps the graph of the view and passes to `Unblock` only
the changes that are done. -/
theorem unblock_foldl (done : List Nat) : ∀ b : BlockedChanges,
    (done.foldl (fun b change => b.Unblock change) b).graph = b.graph ∧
    ∀ u, u ∈ (done.foldl (fun b change => b.Unblock change) b).unblocked →
      u ∈ done ∨ u ∈ b.unblocked := by
  induction done with
  | nil => intro b; exact ⟨rfl, fun u hu => Or.inr hu⟩
  | cons x rest ih =>
    intro b
    obtain ⟨hg, hu⟩ := ih (b.Unblock x)
    refine ⟨hg, ?_⟩
    intro u hmem
    rcases hu u hmem with h | h
    · exact Or.inl (List.mem_cons_of_mem _ h)
    · rcases List.mem_cons.mp h with rfl | h
      · exact Or.inl (List.mem_cons_self _ _)
      · exact Or.inr h

/-- Under the invariant, every dependency of an unblocked node was returned as done by
a logged `WaitForAny`. -/
theorem ApplyInvariant.batch {S T : Type} {g : ChangeGraph} {s : ApplyState S T}
    (h : ApplyInvariant g s) :
    ∀ n ∈ s.blockedChanges.Unblocked, ∀ d ∈ g.WaitingFor n,
      ∃ done, Call.WaitForAny (Except.ok done) ∈ s.calls ∧ d ∈ done := by
  intro n hn d hd
  unfold BlockedChanges.Unblocked at hn
  have hub : s.blockedChanges.isUnblocked n = true := (List.mem_filter.mp hn).2
  unfold BlockedChanges.isUnblocked at hub
  rw [h.graph_eq, List.all_eq_true] at hub
  have := hub d hd
  exact h.unblocked_done d (of_decide_eq_true this)

/-- One iteration of the loop of `Apply` keeps the invariant. -/
theorem applyIteration_invariant {S T : Type} (A : ApplyingChanges S)
    (W : WaitingChanges T) (n : Nat) (g : ChangeGraph) (s : ApplyState S T)
    (h : ApplyInvariant g s) : ApplyInvariant g (applyIteration A W n s).state := by
  have hb := h.batch
  have hmono : ∀ (more : List Call) (u : Nat), u ∈ s.blockedChanges.unblocked →
      ∃ done, Call.WaitForAny (Except.ok done) ∈ s.calls ++ more ∧ u ∈ done := by
    intro more u hu
    obtain ⟨done, hd1, hd2⟩ := h.unblocked_done u hu
    exact ⟨done, List.mem_append_left _ hd1, hd2⟩
  cases hA : A.Apply s.applyingChanges s.blockedChanges.Unblocked with
  | mk res a1 =>
    have hord1 : ∀ r, CallsOrdered g
        (s.calls ++ [Call.Apply s.blockedChanges.Unblocked r]) := by
      intro r
      refine h.ordered.snoc _ ?_
      intro batch result he
      injection he with he1 _
      subst he1
      exact hb
    cases res with
    | error err =>
      rw [applyIteration_apply_error A W n s err a1 hA]
      exact ⟨h.graph_eq, hmono _, hord1 _⟩
    | ok applied =>
      have hord3 : ∀ b, CallsOrdered g
          (s.calls ++ [Call.Apply s.blockedChanges.Unblocked (Except.ok applied),
            Call.Track applied, Call.IsEmpty b]) := by
        intro b
        have := ((hord1 (Except.ok applied)).snoc_track applied).snoc_isEmpty b
        simpa using this
      cases he : W.IsEmpty (W.Track s.waitingChanges applied) with
      | true =>
        by_cases hn : n = A.NumApplied a1
        · rw [applyIteration_success A W n s applied a1 hA he hn]
          refine ⟨h.graph_eq, ?_, (hord3 true).snoc_numApplied _⟩
          intro u hu
          obtain ⟨done, hd1, hd2⟩ := h.unblocked_done u hu
          exact ⟨done, by simp [Iteration.state, hd1], hd2⟩
        · rw [applyIteration_inconsistent A W n s applied a1 hA he hn]
          refine ⟨h.graph_eq, ?_, (hord3 true).snoc_numApplied _⟩
          intro u hu
          obtain ⟨done, hd1, hd2⟩ := h.unblocked_done u hu
          exact ⟨done, by simp [Iteration.state, hd1], hd2⟩
      | false =>
        cases hW : W.WaitForAny (W.Track s.waitingChanges applied) with
        | mk wres w2 =>
          cases wres with
          | error err =>
            rw [applyIteration_wait_error A W n s applied a1 err w2 hA he hW]
            refine ⟨h.graph_eq, ?_, (hord3 false).snoc_waitForAny _⟩
            intro u hu
            obtain ⟨done, hd1, hd2⟩ := h.unblocked_done u hu
            exact ⟨done, by simp [Iteration.state, hd1], hd2⟩
          | ok done =>
            rw [applyIteration_continue A W n s applied a1 done w2 hA he hW]
            obtain ⟨hg, hu⟩ := unblock_foldl done s.blockedChanges
            refine ⟨hg.trans h.graph_eq, ?_, (hord3 false).snoc_waitForAny _⟩
            intro u hmem
            rcases hu u hmem with hd | hold
            · exact ⟨done, by simp [Iteration.state], hd⟩
            · obtain ⟨done1, hd1, hd2⟩ := h.unblocked_done u hold
              exact ⟨done1, by simp [Iteration.state, hd1], hd2⟩

/-- The loop of `Apply` keeps the invariant, for any number of iterations. -/
theorem applyLoop_invariant {S T : Type} (A : ApplyingChanges S) (W : WaitingChanges T)
    (n : Nat) (g : ChangeGraph) : ∀ (fuel : Nat) (s : ApplyState S T),
      ApplyInvariant g s → ApplyInvariant g (applyLoop A W n fuel s).2 := by
  intro fuel
  induction fuel with
  | zero => intro s h; exact h
  | succ fuel ih =>
    intro s h
    have hit := applyIteration_invariant A W n g s h
    simp only [applyLoop]
    cases hi : applyIteration A W n s with
    | returned err s1 =>
      rw [hi] at hit
      exact hit
    | continued s1 =>
      rw [hi] at hit
      exact ih s1 hit

/-- The invariant holds when `Apply` enters its loop. -/
theorem initial_invariant {S T : Type} (A : ApplyingChanges S) (W : WaitingChanges T)
    (g : ChangeGraph) : ApplyInvariant g (ApplyState.initial A W g) :=
  ⟨rfl, fun _ hu => (by cases hu), CallsOrdered.nil g⟩

/-- Claim C1.  For every change graph `g` (acyclic or not), every behaviour of the two trackers and
every number of iterations of the loop of `Apply`: whenever the log of calls holds a call
of the applying tracker's `Apply` on a batch, every node that a node of the batch waits
for was returned as done by a `WaitForAny` that comes earlier in the log. -/
theorem C1_applied_only_after_dependencies_done {S T : Type} (A : ApplyingChanges S)
    (W : WaitingChanges T) (g : ChangeGraph) (fuel : Nat)
    (before : List Call) (batch : List Nat) (result : Except String (List Nat))
    (later : List Call)
    (hcalls : (ClusterChangeSet.Apply fuel A W g).2.calls =
      before ++ Call.Apply batch result :: later) :
    ∀ n ∈ batch, ∀ d ∈ g.WaitingFor n,
      ∃ done, Call.WaitForAny (Except.ok done) ∈ before ∧ d ∈ done :=
  (applyLoop_invariant A W g.All.length g fuel _ (initial_invariant A W g)).ordered
    before batch result later hcalls

/-- The run of `Apply` on the chain A, B, C with the example trackers: the log of its calls,
and the third batch `[0, 1, 2]`, whose dependencies 1 and 2 were returned as done
before. -/
theorem C1_witness :
    (ClusterChangeSet.Apply 4 (exampleApplyingChanges []) (exampleWaitingChanges false)
        chainGraph).2.calls =
      [Call.Apply [2] (Except.ok [2]), Call.Track [2], Call.IsEmpty false,
        Call.WaitForAny (Except.ok [2]),
        Call.Apply [1, 2] (Except.ok [1]), Call.Track [1], Call.IsEmpty false,
        Call.WaitForAny (Except.ok [1])] ++
      Call.Apply [0, 1, 2] (Except.ok [0]) ::
      [Call.Track [0], Call.IsEmpty false, Call.WaitForAny (Except.ok [0]),
        Call.Apply [0, 1, 2] (Except.ok []), Call.Track [], Call.IsEmpty true,
        Call.NumApplied 3] ∧
    ∀ n ∈ [0, 1, 2], ∀ d ∈ chainGraph.WaitingFor n,
      ∃ done, Call.WaitForAny (Except.ok done) ∈
        [Call.Apply [2] (Except.ok [2]), Call.Track [2], Call.IsEmpty false,
          Call.WaitForAny (Except.ok [2]),
          Call.Apply [1, 2] (Except.ok [1]), Call.Track [1], Call.IsEmpty false,
          Call.WaitForAny (Except.ok [1])] ∧ d ∈ done :=
  ⟨rfl, C1_applied_only_after_dependencies_done (exampleApplyingChanges [])
    (exampleWaitingChanges false) chainGraph 4 _ [0, 1, 2] (Except.ok [0]) _ rfl⟩

/-- An iteration returns `nil` only with the waiting tracker empty and the count of applied
changes equal to the expected one. -/
theorem applyIteration_returned_ok {S T : Type} (A : ApplyingChanges S)
    (W : WaitingChanges T) (n : Nat) (s s1 : ApplyState S T)
    (h : applyIteration A W n s = Iteration.returned (Except.ok ()) s1) :
    W.IsEmpty s1.waitingChanges = true ∧ A.NumApplied s1.applyingChanges = n ∧
      ∃ earlier, s1.calls = earlier ++ [Call.IsEmpty true, Call.NumApplied n] := by
  cases hA : A.Apply s.applyingChanges s.blockedChanges.Unblocked with
  | mk res a1 =>
    cases res with
    | error err =>
      rw [applyIteration_apply_error A W n s err a1 hA] at h
      injection h with h1 _
      cases h1
    | ok applied =>
      cases he : W.IsEmpty (W.Track s.waitingChanges applied) with
      | true =>
        by_cases hn : n = A.NumApplied a1
        · rw [applyIteration_success A W n s applied a1 hA he hn] at h
          injection h with _ h2
          subst h2
          refine ⟨he, hn.symm, s.calls ++
            [Call.Apply s.blockedChanges.Unblocked (Except.ok applied), Call.Track applied],
            ?_⟩
          simp [← hn]
        · rw [applyIteration_inconsistent A W n s applied a1 hA he hn] at h
          injection h with h1 _
          cases h1
      | false =>
        cases hW : W.WaitForAny (W.Track s.waitingChanges applied) with
        | mk wres w2 =>
          cases wres with
          | error err =>
            rw [applyIteration_wait_error A W n s applied a1 err w2 hA he hW] at h
            injection h with h1 _
            cases h1
          | ok done =>
            rw [applyIteration_continue A W n s applied a1 done w2 hA he hW] at h
            cases h

/-- The loop of `Apply` returns `nil` only with the waiting tracker empty and the count of
applied changes equal to the expected one. -/
theorem applyLoop_returned_ok {S T : Type} (A : ApplyingChanges S)
    (W : WaitingChanges T) (n : Nat) : ∀ (fuel : Nat) (s s1 : ApplyState S T),
      applyLoop A W n fuel s = (some (Except.ok ()), s1) →
      W.IsEmpty s1.waitingChanges = true ∧ A.NumApplied s1.applyingChanges = n ∧
        ∃ earlier, s1.calls = earlier ++ [Call.IsEmpty true, Call.NumApplied n] := by
  intro fuel
  induction fuel with
  | zero =>
    intro s s1 h
    simp only [applyLoop] at h
    injection h with h1 _
    cases h1
  | succ fuel ih =>
    intro s s1 h
    simp only [applyLoop] at h
    cases hi : applyIteration A W n s with
    | returned err s2 =>
      rw [hi] at h
      simp only at h
      injection h with h1 h2
      injection h1 with h1
      subst h1 h2
      exact applyIteration_returned_ok A W n s s2 hi
    | continued s2 =>
      rw [hi] at h
      exact ih s2 s1 h

/-- When an iteration returns, so does the loop, with the same result and state. -/
theorem applyLoop_returned {S T : Type} (A : ApplyingChanges S) (W : WaitingChanges T)
    (n fuel : Nat) (s s1 : ApplyState S T) (err : Except String Unit)
    (h : applyIteration A W n s = Iteration.returned err s1) :
    applyLoop A W n (fuel + 1) s = (some err, s1) := by
  simp only [applyLoop, h]

/-- Claim C4.  For every graph `g` and every behaviour of the two trackers: (1) if `Apply` returns
`nil` then it does so from an iteration whose last two calls were `IsEmpty`, answering
true, and `NumApplied`, answering the number of nodes of `g` as read at the start, and
the trackers are left in that state; (2) if a run is still going after `k` iterations
and in the next iteration the waiting tracker is empty after `Track` while `NumApplied`
differs from the number of nodes of `g`, then `Apply` returns the error "Internal
inconsistency: did not apply all changes", not `nil`. -/
theorem C4_success_only_when_all_changes_applied {S T : Type} (A : ApplyingChanges S)
    (W : WaitingChanges T) (g : ChangeGraph) :
    (∀ (fuel : Nat) (s : ApplyState S T),
      ClusterChangeSet.Apply fuel A W g = (some (Except.ok ()), s) →
      W.IsEmpty s.waitingChanges = true ∧
        A.NumApplied s.applyingChanges = g.All.length ∧
        ∃ earlier, s.calls =
          earlier ++ [Call.IsEmpty true, Call.NumApplied g.All.length]) ∧
    (∀ (k : Nat) (s : ApplyState S T) (appliedChanges : List Nat) (a1 : S),
      ClusterChangeSet.Apply k A W g = (none, s) →
      A.Apply s.applyingChanges s.blockedChanges.Unblocked
        = (Except.ok appliedChanges, a1) →
      W.IsEmpty (W.Track s.waitingChanges appliedChanges) = true →
      A.NumApplied a1 ≠ g.All.length →
      ∀ fuel, (ClusterChangeSet.Apply (k + (fuel + 1)) A W g).1 =
        some (Except.error (inconsistencyError g.All.length (A.NumApplied a1)))) := by
  constructor
  · intro fuel s h
    exact applyLoop_returned_ok A W g.All.length fuel _ s h
  · intro k s applied a1 hk hA he hne fuel
    unfold ClusterChangeSet.Apply at hk ⊢
    simp only at hk ⊢
    rw [applyLoop_add A W _ k _ s hk (fuel + 1),
      applyLoop_returned A W _ fuel s _ _
        (applyIteration_inconsistent A W _ s applied a1 hA he (Ne.symm hne))]

/-- On the chain A, B, C the example trackers make `Apply` return `nil` with all three
changes applied; on the graph with a cycle nothing is unblocked, the waiting tracker is
empty with 0 of 2 changes applied, and `Apply` returns the inconsistency error. -/
theorem C4_witness :
    (ClusterChangeSet.Apply 4 (exampleApplyingChanges []) (exampleWaitingChanges false)
        chainGraph).1 = some (Except.ok ()) ∧
    ((exampleWaitingChanges false).IsEmpty
        (ClusterChangeSet.Apply 4 (exampleApplyingChanges []) (exampleWaitingChanges false)
          chainGraph).2.waitingChanges = true ∧
      (exampleApplyingChanges []).NumApplied
        (ClusterChangeSet.Apply 4 (exampleApplyingChanges []) (exampleWaitingChanges false)
          chainGraph).2.applyingChanges = chainGraph.All.length ∧
      ∃ earlier, (ClusterChangeSet.Apply 4 (exampleApplyingChanges [])
          (exampleWaitingChanges false) chainGraph).2.calls =
        earlier ++ [Call.IsEmpty true, Call.NumApplied chainGraph.All.length]) ∧
    (ClusterChangeSet.Apply (0 + (0 + 1)) (exampleApplyingChanges [])
        (exampleWaitingChanges false) cycleGraph).1 =
      some (Except.error (inconsistencyError cycleGraph.All.length 0)) :=
  ⟨rfl,
    (C4_success_only_when_all_changes_applied (exampleApplyingChanges [])
      (exampleWaitingChanges false) chainGraph).1 4 _ rfl,
    (C4_success_only_when_all_changes_applied (exampleApplyingChanges [])
      (exampleWaitingChanges false) cycleGraph).2 0 _ [] [] rfl rfl rfl (by decide) 0⟩

/-- Claim C5.  For every graph and every behaviour of the two trackers, in a run that is still
going after `k` iterations: (1) if the applying tracker's `Apply` returns an error in the
next iteration, `ClusterChangeSet.Apply` returns that error, the failing call is the last
call in the log and the waiting tracker is left untouched; (2) if `WaitForAny` returns an
error in the next iteration, `ClusterChangeSet.Apply` returns that error, the failing
call is the last call in the log, and `NumApplied` is what it was after the last batch. -/
theorem C5_tracker_error_returned_at_once {S T : Type} (A : ApplyingChanges S)
    (W : WaitingChanges T) (g : ChangeGraph) :
    (∀ (k : Nat) (s : ApplyState S T) (err : String) (a1 : S),
      ClusterChangeSet.Apply k A W g = (none, s) →
      A.Apply s.applyingChanges s.blockedChanges.Unblocked = (Except.error err, a1) →
      ∀ fuel, ClusterChangeSet.Apply (k + (fuel + 1)) A W g =
        (some (Except.error err),
          { s with applyingChanges := a1
                   calls := s.calls ++
                     [Call.Apply s.blockedChanges.Unblocked (Except.error err)] })) ∧
    (∀ (k : Nat) (s : ApplyState S T) (appliedChanges : List Nat) (a1 : S) (err : String)
        (w2 : T),
      ClusterChangeSet.Apply k A W g = (none, s) →
      A.Apply s.applyingChanges s.blockedChanges.Unblocked
        = (Except.ok appliedChanges, a1) →
      W.IsEmpty (W.Track s.waitingChanges appliedChanges) = false →
      W.WaitForAny (W.Track s.waitingChanges appliedChanges) = (Except.error err, w2) →
      ∀ fuel,
        ClusterChangeSet.Apply (k + (fuel + 1)) A W g =
          (some (Except.error err),
            { s with applyingChanges := a1
                     waitingChanges := w2
                     calls := s.calls ++
                       [Call.Apply s.blockedChanges.Unblocked (Except.ok appliedChanges),
                        Call.Track appliedChanges, Call.IsEmpty false,
                        Call.WaitForAny (Except.error err)] }) ∧
        A.NumApplied (ClusterChangeSet.Apply (k + (fuel + 1)) A W g).2.applyingChanges =
          A.NumApplied a1) := by
  constructor
  · intro k s err a1 hk hA fuel
    unfold ClusterChangeSet.Apply at hk ⊢
    simp only at hk ⊢
    rw [applyLoop_add A W _ k _ s hk (fuel + 1),
      applyLoop_returned A W _ fuel s _ _ (applyIteration_apply_error A W _ s err a1 hA)]
  · intro k s applied a1 err w2 hk hA he hW fuel
    unfold ClusterChangeSet.Apply at hk ⊢
    simp only at hk ⊢
    rw [applyLoop_add A W _ k _ s hk (fuel + 1),
      applyLoop_returned A W _ fuel s _ _
        (applyIteration_wait_error A W _ s applied a1 err w2 hA he hW)]
    exact ⟨by simp, rfl⟩

/-- The graph of the chain with nothing to wait for is well formed. -/
theorem inertChainGraph_closed : inertChainGraph.Closed :=
  ⟨by decide, by decide⟩

/-- The graph of the chain with nothing to wait for is acyclic. -/
theorem inertChainGraph_acyclic : inertChainGraph.Acyclic :=
  acyclic_of_rank inertChainGraph (fun a => 3 - a) (by decide)

/-- The chain with nothing to wait for at the statement of claim C10: B (node 1) is pruned. -/
theorem C10_witness :
    exampleNewChangeGraph chainEdges (inertChainChangeSet.changes.map
      (fun change => wrappedClusterChange.mk (inertChainChangeSet.clusterChangeFactory change)))
        = Except.ok inertChainGraph ∧
    ∃ marked result pruned,
      markAllChangesToWait 3 inertChainGraph = some marked ∧
      inertChainChangeSet.Calculate 3 (exampleNewChangeGraph chainEdges)
        = some (Except.ok (result, pruned)) ∧
      (∀ a, marked.isMarked a = true → inertChainGraph.isMarked a = false →
        inertChainGraph.DependsOnWaiting a) ∧
      (∀ a ∈ inertChainGraph.changes, ∀ node, inertChainGraph.heap[a]? = some node →
        node.Change.ClusterChange.ApplyOp = ClusterChangeApplyOp.Noop →
        node.Change.ClusterChange.WaitOp = ClusterChangeWaitOp.Noop →
        ¬ inertChainGraph.DependsOnWaiting a →
        marked.isMarked a = false ∧ a ∉ result ∧ a ∉ pruned.All) :=
  ⟨rfl, C10_marks_only_dependents_of_waiting inertChainChangeSet
      (exampleNewChangeGraph chainEdges) inertChainGraph 3 rfl inertChainGraph_closed
      inertChainGraph_acyclic (by decide)⟩

/-- With three independent updates of which the second fails to apply, `Apply` returns the
apply error after the one call, with one change applied; on the chain with a waiting
tracker that times out, `Apply` returns the timeout error and `NumApplied` stays 1. -/
theorem C5_witness :
    ClusterChangeSet.Apply (0 + (0 + 1)) (exampleApplyingChanges [1])
        (exampleWaitingChanges false) independentGraph =
      (some (Except.error "apply failed"),
        { applyingChanges := [0], waitingChanges := [],
          blockedChanges := NewBlockedChanges independentGraph,
          calls := [Call.Apply [0, 1, 2] (Except.error "apply failed")] }) ∧
    (ClusterChangeSet.Apply (0 + (0 + 1)) (exampleApplyingChanges [])
        (exampleWaitingChanges true) chainGraph =
      (some (Except.error "timed out waiting"),
        { applyingChanges := [2], waitingChanges := [2],
          blockedChanges := NewBlockedChanges chainGraph,
          calls := [Call.Apply [2] (Except.ok [2]), Call.Track [2], Call.IsEmpty false,
            Call.WaitForAny (Except.error "timed out waiting")] }) ∧
      (exampleApplyingChanges []).NumApplied
        (ClusterChangeSet.Apply (0 + (0 + 1)) (exampleApplyingChanges [])
          (exampleWaitingChanges true) chainGraph).2.applyingChanges = 1) :=
  ⟨(C5_tracker_error_returned_at_once (exampleApplyingChanges [1])
      (exampleWaitingChanges false) independentGraph).1 0
      (ApplyState.initial (exampleApplyingChanges [1]) (exampleWaitingChanges false)
        independentGraph) "apply failed" [0] rfl rfl 0,
    (C5_tracker_error_returned_at_once (exampleApplyingChanges [])
      (exampleWaitingChanges true) chainGraph).2 0
      (ApplyState.initial (exampleApplyingChanges []) (exampleWaitingChanges true)
        chainGraph) [2] [2] "timed out waiting" [2] rfl rfl rfl rfl 0⟩

/-- On a graph with no nodes, with trackers that handle only what they are handed, `Apply`
returns `nil` in its first iteration. -/
theorem apply_on_empty_graph {S T : Type} (A : ApplyingChanges S) (W : WaitingChanges T)
    (ht : TrackersOnlyHandleHanded A W) (g : ChangeGraph) (hg : g.All = []) (fuel : Nat) :
    ∃ s, ClusterChangeSet.Apply (fuel + 1) A W g = (some (Except.ok ()), s) ∧
      s.calls = [Call.Apply [] (Except.ok []), Call.Track [], Call.IsEmpty true,
        Call.NumApplied 0] := by
  obtain ⟨a1, hA, hnum⟩ := ht.apply_nil (A.init 0)
  have hub0 : (NewBlockedChanges g).Unblocked = [] := by
    simp [NewBlockedChanges, BlockedChanges.Unblocked, hg]
  have hub : (ApplyState.initial A W g).blockedChanges.Unblocked = [] := hub0
  have hA1 : A.Apply (ApplyState.initial A W g).applyingChanges
      (ApplyState.initial A W g).blockedChanges.Unblocked = (Except.ok [], a1) := by
    rw [hub]
    simpa [ApplyState.initial, hg] using hA
  have he : W.IsEmpty (W.Track (ApplyState.initial A W g).waitingChanges []) = true :=
    ht.track_nil _ (by simpa [ApplyState.initial] using ht.isEmpty_init _)
  have hn : g.All.length = A.NumApplied a1 := by
    simp [hnum, ht.numApplied_init, hg]
  have hrun := applyLoop_returned A W g.All.length fuel _ _ _
    (applyIteration_success A W _ _ [] a1 hA1 he hn)
  refine ⟨_, hrun, ?_⟩
  simp [hub0, ApplyState.initial, ← hn, hg]

/-- Claim C6.  When every diff entry yields a change whose `ApplyOp` is Noop and whose `WaitOp`
is Noop, and the builder returns a well-formed acyclic graph whose nodes wrap these
changes, `Calculate` returns no changes and a graph with no nodes; and `Apply` on that
graph, with trackers that apply and track only what they are handed, returns `nil` in its
first iteration: the applying tracker is handed the empty batch once and applies nothing,
nothing is tracked, and `WaitForAny` is never called. -/
theorem C6_all_noop_prunes_all_and_apply_succeeds {Diff S T : Type}
    (c : ClusterChangeSet Diff)
    (NewChangeGraph : List wrappedClusterChange → Except String ChangeGraph)
    (g : ChangeGraph) (fuel : Nat) (A : ApplyingChanges S) (W : WaitingChanges T)
    (hg : NewChangeGraph (c.changes.map
      (fun change => wrappedClusterChange.mk (c.clusterChangeFactory change))) = Except.ok g)
    (hc : g.Closed) (hac : g.Acyclic) (hf : g.heap.length ≤ fuel)
    (hwrap : ∀ node ∈ g.heap, node.Change ∈ c.changes.map
      (fun change => wrappedClusterChange.mk (c.clusterChangeFactory change)))
    (hnoop : ∀ change ∈ c.changes,
      (c.clusterChangeFactory change).ApplyOp = ClusterChangeApplyOp.Noop ∧
      (c.clusterChangeFactory change).WaitOp = ClusterChangeWaitOp.Noop)
    (ht : TrackersOnlyHandleHanded A W) :
    ∃ pruned, c.Calculate fuel NewChangeGraph = some (Except.ok ([], pruned)) ∧
      pruned.All = [] ∧
      ∀ fuelApply, ∃ s,
        ClusterChangeSet.Apply (fuelApply + 1) A W pruned = (some (Except.ok ()), s) ∧
        s.calls = [Call.Apply [] (Except.ok []), Call.Track [], Call.IsEmpty true,
          Call.NumApplied 0] := by
  obtain ⟨marked, hm, hs, hsd, _⟩ := markAllChangesToWait_spec g hc hac fuel hf
  have hnode : ∀ (a : Nat) (node : Change), g.heap[a]? = some node →
      node.Change.ClusterChange.ApplyOp = ClusterChangeApplyOp.Noop ∧
      node.Change.ClusterChange.WaitOp = ClusterChangeWaitOp.Noop := by
    intro a node hn
    obtain ⟨change, hch, heq⟩ := List.mem_map.mp (hwrap node (List.getElem?_mem hn))
    rw [← heq]
    exact hnoop change hch
  have hndw : ∀ a, ¬ g.DependsOnWaiting a := by
    rintro a ⟨d, _, node, hn, hne⟩
    exact hne (hnode d node hn).2
  have hall : (marked.RemoveMatching pruneMatchFunc).All = [] := by
    rw [List.eq_nil_iff_forall_not_mem]
    intro a ha
    have hmem := ((mem_removeMatching_all marked a).mp ha).1
    rw [hs.changes_eq] at hmem
    have hlt := hc.listed_lt a hmem
    obtain ⟨h1, h2⟩ := hnode a _ (List.getElem?_eq_getElem hlt)
    exact (inert_pruned hs hsd a _ (List.getElem?_eq_getElem hlt) h1 h2 (hndw a)).2 ha
  refine ⟨marked.RemoveMatching pruneMatchFunc, ?_, hall, ?_⟩
  · rw [Calculate_ok c NewChangeGraph g marked fuel hg hm, hall]
  · intro fuelApply
    exact apply_on_empty_graph A W ht _ hall fuelApply

/-- The graph of the two Noop entries is well formed. -/
theorem noopGraph_closed : noopGraph.Closed :=
  ⟨by decide, by decide⟩

/-- The graph of the two Noop entries is acyclic. -/
theorem noopGraph_acyclic : noopGraph.Acyclic :=
  acyclic_of_rank noopGraph (fun a => 2 - a) (by decide)

/-- The example trackers handle only what they are handed. -/
theorem exampleTrackers_onlyHandleHanded :
    TrackersOnlyHandleHanded (exampleApplyingChanges []) (exampleWaitingChanges false) :=
  ⟨fun _ => rfl, fun s => ⟨s, by simp [exampleApplyingChanges], rfl⟩, fun _ => rfl,
    fun w hw => by simpa [exampleWaitingChanges] using hw⟩

/-- Two Noop/Noop entries, the first waiting for the second, at the statement of claim C6. -/
theorem C6_witness :
    exampleNewChangeGraph [[1], []] (noopChangeSet.changes.map
      (fun change => wrappedClusterChange.mk (noopChangeSet.clusterChangeFactory change)))
        = Except.ok noopGraph ∧
    ∃ pruned, noopChangeSet.Calculate 2 (exampleNewChangeGraph [[1], []])
        = some (Except.ok ([], pruned)) ∧
      pruned.All = [] ∧
      ∀ fuelApply, ∃ s,
        ClusterChangeSet.Apply (fuelApply + 1) (exampleApplyingChanges [])
          (exampleWaitingChanges false) pruned = (some (Except.ok ()), s) ∧
        s.calls = [Call.Apply [] (Except.ok []), Call.Track [], Call.IsEmpty true,
          Call.NumApplied 0] :=
  ⟨rfl, C6_all_noop_prunes_all_and_apply_succeeds noopChangeSet
      (exampleNewChangeGraph [[1], []]) noopGraph 2 (exampleApplyingChanges [])
      (exampleWaitingChanges false) rfl noopGraph_closed noopGraph_acyclic (by decide)
      (by decide) (by decide) exampleTrackers_onlyHandleHanded⟩

end Kapp
